import Mathlib

/-!
Verification development for the minect library (vanilla-technologies/minect).

Each definition below is a shallow embedding of an item of the Rust source,
named after it where Lean allows.  Machine integers (`i32`, `u64`) are
modelled as `Int`/`Nat`, with explicit `% 2 ^ 64` where the source uses
wrapping `u64` arithmetic.  Fallible operations are modelled with
`Option`/`Except`, and filesystem-mutating code is modelled as explicit
state passing over a record of the relevant on-disk state, with an
environment of booleans choosing which I/O primitive (if any) fails.
-/

namespace Minect

/-! ## Spatial algebra (src/geometry3.rs) -/

/-- Embeds `Coordinate3<T>` (src/geometry3.rs): a tuple struct of three scalars. -/
structure Coordinate3 (α : Type) where
  c0 : α
  c1 : α
  c2 : α
deriving DecidableEq, Repr

/-- Embeds `Axis3` (src/geometry3.rs). -/
inductive Axis3 where
  | X
  | Y
  | Z
deriving DecidableEq, Repr

/-- Embeds `Direction3` (src/geometry3.rs): the six axis-aligned unit directions. -/
inductive Direction3 where
  | East
  | West
  | Up
  | Down
  | South
  | North
deriving DecidableEq, Repr

/-- Embeds `Coordinate3`'s `Index<Axis3>` impl. -/
def Coordinate3.get {α : Type} (c : Coordinate3 α) : Axis3 → α
  | Axis3.X => c.c0
  | Axis3.Y => c.c1
  | Axis3.Z => c.c2

/-- Embeds `Coordinate3`'s `IndexMut<Axis3>` impl (assignment `c[axis] = v`). -/
def Coordinate3.set {α : Type} (c : Coordinate3 α) : Axis3 → α → Coordinate3 α
  | Axis3.X, v => ⟨v, c.c1, c.c2⟩
  | Axis3.Y, v => ⟨c.c0, v, c.c2⟩
  | Axis3.Z, v => ⟨c.c0, c.c1, v⟩

/-- Embeds component-wise `Add for Coordinate3`. -/
def Coordinate3.add (a b : Coordinate3 Int) : Coordinate3 Int :=
  ⟨a.c0 + b.c0, a.c1 + b.c1, a.c2 + b.c2⟩

/-- Embeds component-wise `Sub for Coordinate3`. -/
def Coordinate3.sub (a b : Coordinate3 Int) : Coordinate3 Int :=
  ⟨a.c0 - b.c0, a.c1 - b.c1, a.c2 - b.c2⟩

/-- Embeds `Coordinate3::max` (component-wise maximum corner). -/
def Coordinate3.max3 (a b : Coordinate3 Int) : Coordinate3 Int :=
  ⟨max a.c0 b.c0, max a.c1 b.c1, max a.c2 b.c2⟩

/-- Embeds `Direction3::axis`. -/
def Direction3.axis : Direction3 → Axis3
  | Direction3.East => Axis3.X
  | Direction3.West => Axis3.X
  | Direction3.Up => Axis3.Y
  | Direction3.Down => Axis3.Y
  | Direction3.South => Axis3.Z
  | Direction3.North => Axis3.Z

/-- Embeds `Direction3::is_positive`. -/
def Direction3.is_positive : Direction3 → Bool
  | Direction3.East => true
  | Direction3.West => false
  | Direction3.Up => true
  | Direction3.Down => false
  | Direction3.South => true
  | Direction3.North => false

/-- Embeds `Direction3::is_negative`. -/
def Direction3.is_negative (d : Direction3) : Bool :=
  !d.is_positive

/-- Embeds `Neg for Direction3`. -/
def Direction3.neg : Direction3 → Direction3
  | Direction3.East => Direction3.West
  | Direction3.West => Direction3.East
  | Direction3.Up => Direction3.Down
  | Direction3.Down => Direction3.Up
  | Direction3.South => Direction3.North
  | Direction3.North => Direction3.South

/-- Embeds `Direction3::as_str`. -/
def Direction3.as_str : Direction3 → String
  | Direction3.East => "east"
  | Direction3.West => "west"
  | Direction3.Up => "up"
  | Direction3.Down => "down"
  | Direction3.South => "south"
  | Direction3.North => "north"

/-- Embeds `Direction3::as_coordinate(one, zero)`. -/
def Direction3.as_coordinate (d : Direction3) (one zero : Int) : Coordinate3 Int :=
  match d with
  | Direction3.East => ⟨one, zero, zero⟩
  | Direction3.West => ⟨-one, zero, zero⟩
  | Direction3.Up => ⟨zero, one, zero⟩
  | Direction3.Down => ⟨zero, -one, zero⟩
  | Direction3.South => ⟨zero, zero, one⟩
  | Direction3.North => ⟨zero, zero, -one⟩

/-- Embeds `TryFrom<Coordinate3<S>> for Direction3`: succeeds iff exactly one
signed component is non-zero, picking the direction of that component. -/
def Direction3.tryFromCoordinate (v : Coordinate3 Int) : Option Direction3 :=
  let count :=
    (List.filter (fun b => b)
      [decide (0 < v.c0), decide (v.c0 < 0), decide (0 < v.c1),
        decide (v.c1 < 0), decide (0 < v.c2), decide (v.c2 < 0)]).length
  if count ≠ 1 then none
  else if 0 < v.c0 then some Direction3.East
  else if v.c0 < 0 then some Direction3.West
  else if 0 < v.c1 then some Direction3.Up
  else if v.c1 < 0 then some Direction3.Down
  else if 0 < v.c2 then some Direction3.South
  else if v.c2 < 0 then some Direction3.North
  else none

/-- Embeds `Orientation3` (src/geometry3.rs): the 48 axis-aligned
rotations/reflections, named as in the source (lower case = negative direction). -/
inductive Orientation3 where
  | XYZ | XYz | XZY | XZy | XyZ | Xyz | XzY | Xzy
  | YXZ | YXz | YZX | YZx | YxZ | Yxz | YzX | Yzx
  | ZXY | ZXy | ZYX | ZYx | ZxY | Zxy | ZyX | Zyx
  | xYZ | xYz | xZY | xZy | xyZ | xyz | xzY | xzy
  | yXZ | yXz | yZX | yZx | yxZ | yxz | yzX | yzx
  | zXY | zXy | zYX | zYx | zxY | zxy | zyX | zyx
deriving DecidableEq, Repr

namespace Orientation3

/-- Embeds `Orientation3::direction1` (the primary direction). -/
def direction1 : Orientation3 → Direction3
  | XYZ | XYz | XZY | XZy | XyZ | Xyz | XzY | Xzy => Direction3.East
  | YXZ | YXz | YZX | YZx | YxZ | Yxz | YzX | Yzx => Direction3.Up
  | ZXY | ZXy | ZYX | ZYx | ZxY | Zxy | ZyX | Zyx => Direction3.South
  | xYZ | xYz | xZY | xZy | xyZ | xyz | xzY | xzy => Direction3.West
  | yXZ | yXz | yZX | yZx | yxZ | yxz | yzX | yzx => Direction3.Down
  | zXY | zXy | zYX | zYx | zxY | zxy | zyX | zyx => Direction3.North

/-- Embeds `Orientation3::direction2` (the secondary direction). -/
def direction2 : Orientation3 → Direction3
  | XYZ | XYz | xYZ | xYz => Direction3.Up
  | XZY | XZy | xZY | xZy => Direction3.South
  | XyZ | Xyz | xyZ | xyz => Direction3.Down
  | XzY | Xzy | xzY | xzy => Direction3.North
  | YXZ | YXz | yXZ | yXz => Direction3.East
  | YZX | YZx | yZX | yZx => Direction3.South
  | YxZ | Yxz | yxZ | yxz => Direction3.West
  | YzX | Yzx | yzX | yzx => Direction3.North
  | ZXY | ZXy | zXY | zXy => Direction3.East
  | ZYX | ZYx | zYX | zYx => Direction3.Up
  | ZxY | Zxy | zxY | zxy => Direction3.West
  | ZyX | Zyx | zyX | zyx => Direction3.Down

/-- Embeds `Orientation3::direction3` (the tertiary direction). -/
def direction3 : Orientation3 → Direction3
  | XYZ | XyZ | xYZ | xyZ => Direction3.South
  | XYz | Xyz | xYz | xyz => Direction3.North
  | XZY | XzY | xZY | xzY => Direction3.Up
  | XZy | Xzy | xZy | xzy => Direction3.Down
  | YXZ | YxZ | yXZ | yxZ => Direction3.South
  | YXz | Yxz | yXz | yxz => Direction3.North
  | YZX | YzX | yZX | yzX => Direction3.East
  | YZx | Yzx | yZx | yzx => Direction3.West
  | ZXY | ZxY | zXY | zxY => Direction3.Up
  | ZXy | Zxy | zXy | zxy => Direction3.Down
  | ZYX | ZyX | zYX | zyX => Direction3.East
  | ZYx | Zyx | zYx | zyx => Direction3.West

/-- Embeds `Orientation3::inverse` (closed-form matrix transpose). -/
def inverse : Orientation3 → Orientation3
  | XYZ => XYZ
  | XYz => XYz
  | XZY => XZY
  | XZy => XzY
  | XyZ => XyZ
  | Xyz => Xyz
  | XzY => XZy
  | Xzy => Xzy
  | YXZ => YXZ
  | YXz => YXz
  | YZX => ZXY
  | YZx => zXY
  | YxZ => yXZ
  | Yxz => yXz
  | YzX => ZXy
  | Yzx => zXy
  | ZXY => YZX
  | ZXy => YzX
  | ZYX => ZYX
  | ZYx => zYX
  | ZxY => yZX
  | Zxy => yzX
  | ZyX => ZyX
  | Zyx => zyX
  | xYZ => xYZ
  | xYz => xYz
  | xZY => xZY
  | xZy => xzY
  | xyZ => xyZ
  | xyz => xyz
  | xzY => xZy
  | xzy => xzy
  | yXZ => YxZ
  | yXz => Yxz
  | yZX => ZxY
  | yZx => zxY
  | yxZ => yxZ
  | yxz => yxz
  | yzX => Zxy
  | yzx => zxy
  | zXY => YZx
  | zXy => Yzx
  | zYX => ZYx
  | zYx => zYx
  | zxY => yZx
  | zxy => yzx
  | zyX => Zyx
  | zyx => zyx

/-- Embeds `Orientation3::orient_coordinate`: negate each component whose
target direction is negative, then write it to the target axis. -/
def orient_coordinate (o : Orientation3) (c : Coordinate3 Int) : Coordinate3 Int :=
  let t1 := if o.direction1.is_negative then -c.c0 else c.c0
  let t2 := if o.direction2.is_negative then -c.c1 else c.c1
  let t3 := if o.direction3.is_negative then -c.c2 else c.c2
  ((c.set o.direction1.axis t1).set o.direction2.axis t2).set o.direction3.axis t3

/-- Embeds `Orientation3::orient_direction`. -/
def orient_direction (o : Orientation3) (d : Direction3) : Direction3 :=
  let target :=
    match d.axis with
    | Axis3.X => o.direction1
    | Axis3.Y => o.direction2
    | Axis3.Z => o.direction3
  if d.is_positive then target else target.neg

end Orientation3

/-! ## Log events (src/log.rs) -/

/-- Strips a literal character-list from the front of a character list,
embedding `str::strip_prefix` for the literals used by `LogEvent::from_str`. -/
def dropLit : List Char → List Char → Option (List Char)
  | [], s => some s
  | _ :: _, [] => none
  | p :: ps, c :: cs => if c = p then dropLit ps cs else none

/-- Embeds `read_digits(string, 2)` (src/log.rs) for `N = u8`: requires at
least two characters, both ASCII digits; the two-digit value always fits `u8`. -/
def read_digits2 : List Char → Option (Nat × List Char)
  | c1 :: c2 :: rest =>
    if c1.isDigit ∧ c2.isDigit then
      some ((c1.toNat - '0'.toNat) * 10 + (c2.toNat - '0'.toNat), rest)
    else none
  | _ => none

/-- Embeds `str::trim_end` as used on log lines: drop trailing whitespace.
(Rust trims Unicode white space; `Char.isWhitespace` covers the ASCII
whitespace that can occur in a log line.) -/
def trimEnd (s : List Char) : List Char :=
  (s.reverse.dropWhile Char.isWhitespace).reverse

/-- Embeds `str::strip_suffix(']')`. -/
def dropRightBracket (s : List Char) : Option (List Char) :=
  match s.reverse with
  | ']' :: rest => some rest.reverse
  | _ => none

/-- Embeds `str::split_once(": ")`: split at the first occurrence of `": "`. -/
def splitOnceColonSpace : List Char → Option (List Char × List Char)
  | [] => none
  | ':' :: ' ' :: rest => some ([], rest)
  | c :: rest =>
    match splitOnceColonSpace rest with
    | some (a, b) => some (c :: a, b)
    | none => none

/-- Embeds `LogEvent` (src/log.rs): timestamp fields (`u8`), executor and
output text. -/
structure LogEvent where
  hour : Nat
  minute : Nat
  second : Nat
  executor : String
  output : String
deriving DecidableEq, Repr

/-- Embeds `FromStr for LogEvent` (src/log.rs, `from_str_opt`): `[HH:MM:SS]
[Server thread/INFO]: [executor: output]` with two-digit time fields, the
body trimmed of trailing whitespace, and the first `": "` splitting executor
from output. -/
def LogEvent.from_str (line : String) : Option LogEvent := do
  let line ← dropLit ['['] line.data
  let (hour, line) ← read_digits2 line
  let line ← dropLit [':'] line
  let (minute, line) ← read_digits2 line
  let line ← dropLit [':'] line
  let (second, line) ← read_digits2 line
  let line ← dropLit (("] [Server thread/INFO]: [").data) line
  let line := trimEnd line
  let line ← dropRightBracket line
  let (executor, output) ← splitOnceColonSpace line
  pure ⟨hour, minute, second, executor.asString, output.asString⟩

/-- Embeds `Display for LogEvent` (src/log.rs): note the source formats the
time fields with `{}` (plain decimal), not `{:02}`. -/
def LogEvent.toLine (e : LogEvent) : String :=
  "[" ++ toString e.hour ++ ":" ++ toString e.minute ++ ":" ++ toString e.second
    ++ "] [Server thread/INFO]: [" ++ e.executor ++ ": " ++ e.output ++ "]"

/-! ## The sequence counter (src/lib.rs) -/

/-- Decimal digits to value, for `u64::from_str`'s digit loop. -/
def digitsVal (l : List Char) : Nat :=
  l.foldl (fun a c => a * 10 + (c.toNat - '0'.toNat)) 0

/-- Embeds `str::parse::<u64>()`: an optional leading `+`, then one or more
ASCII digits, failing on anything else and on values above `u64::MAX`
(`PosOverflow`). -/
def parseU64 (s : String) : Option Nat :=
  let cs :=
    match s.data with
    | '+' :: rest => rest
    | cs => cs
  if cs = [] then none
  else if cs.all Char.isDigit then
    let v := digitsVal cs
    if v < 2 ^ 64 then some v else none
  else none

/-- Embeds `read_incremented_id` (src/lib.rs) on the counter file's content
(the `read_to_string` I/O step is modelled separately in the filesystem
model below): empty content gives id 0; otherwise the content must parse as
`u64` and the id is that value `wrapping_add 1`; a non-`u64` content is a
hard `InvalidData` error. -/
def read_incremented_id (content : String) : Except Unit Nat :=
  if content = "" then Except.ok 0
  else
    match parseU64 content with
    | some v => Except.ok ((v + 1) % 2 ^ 64)
    | none => Except.error ()

/-! ## Identifier validation (src/lib.rs) -/

/-- Embeds `is_allowed_in_identifier` (src/lib.rs). -/
def is_allowed_in_identifier (c : Char) : Bool :=
  decide ('0' ≤ c ∧ c ≤ '9') || decide ('A' ≤ c ∧ c ≤ 'Z') ||
    decide ('a' ≤ c ∧ c ≤ 'z') || decide (c = '+') || decide (c = '-') ||
    decide (c = '.') || decide (c = '_')

/-- Embeds `validate_identifier` (src/lib.rs): it panics iff the set of
disallowed characters is non-empty (the `IndexSet` deduplication cannot make
a non-empty collection empty, so a plain filter decides emptiness). -/
def validate_identifier_panics (identifier : String) : Bool :=
  !(identifier.data.filter (fun c => !is_allowed_in_identifier c)).isEmpty

/-- Embeds `MinecraftConnectionBuilder` (src/lib.rs); paths are kept as
strings. -/
structure MinecraftConnectionBuilder where
  identifier : String
  world_dir : String
  log_file : Option String
  enable_logging_automatically : Bool

/-- Embeds `MinecraftConnectionBuilder::new` (called by
`MinecraftConnection::builder`): `none` models the panic of
`validate_identifier`. -/
def MinecraftConnectionBuilder.new (identifier world_dir : String) :
    Option MinecraftConnectionBuilder :=
  if validate_identifier_panics identifier then none
  else some ⟨identifier, world_dir, none, true⟩

/-! ## Structure NBT model and builder (src/structure/mod.rs, src/structure/nbt.rs) -/

/-- Embeds the subset of `nbt::Value` the crate constructs (bytes, strings
and compounds).  Compound entries are kept in insertion order; block `nbt`
payloads are never compared, so the `HashMap` iteration order is irrelevant. -/
inductive Nbt where
  | byte : Int → Nbt
  | str : String → Nbt
  | compound : List (String × Nbt) → Nbt

/-- Embeds `BTreeMap::insert` on the string→string property maps, keeping
the key-sorted association-list representation (equal `BTreeMap`s are
exactly those with equal sorted entry lists). -/
def btreeInsert (k v : String) : List (String × String) → List (String × String)
  | [] => [(k, v)]
  | (k', v') :: rest =>
    if k < k' then (k, v) :: (k', v') :: rest
    else if k = k' then (k, v) :: rest
    else (k', v') :: btreeInsert k v rest

/-- Embeds `PaletteBlock` (src/structure/nbt.rs): name plus sorted property
map. -/
structure PaletteBlock where
  name : String
  properties : List (String × String)
deriving DecidableEq, Repr

/-- Embeds `StructureBlock` (src/structure/nbt.rs): palette index (`i32`),
position triple, optional NBT payload. -/
structure StructureBlock where
  state : Int
  pos : List Int
  nbt : Option Nbt

/-- Embeds `Structure` (src/structure/nbt.rs); entities are always empty in
this crate. -/
structure Structure where
  data_version : Int
  size : List Int
  palette : List PaletteBlock
  blocks : List StructureBlock
  entities : List Unit

/-- Embeds `Block` (src/structure/mod.rs). -/
structure Block where
  name : String
  pos : Coordinate3 Int
  properties : List (String × String)
  nbt : Option Nbt

/-- Embeds `StructureBuilder` (src/structure/mod.rs). -/
structure StructureBuilder where
  size : Coordinate3 Int
  palette : List PaletteBlock
  blocks : List StructureBlock

/-- Embeds `StructureBuilder::new`. -/
def StructureBuilder.new : StructureBuilder :=
  ⟨⟨0, 0, 0⟩, [], []⟩

/-- Embeds `Iterator::position(|it| *it == x)`: index of the first occurrence. -/
def listPosition {α : Type} [DecidableEq α] (x : α) : List α → Option Nat
  | [] => none
  | a :: l => if a = x then some 0 else (listPosition x l).map (· + 1)

/-- Embeds `StructureBuilder::add_block`: look up or append the
`(name, properties)` pair in the palette, append a block entry carrying its
index, and grow `size` to the component-wise max with `pos + (1,1,1)`.
The `index as i32` cast is value-preserving for every palette below `2^31`
entries and is modelled as the exact index. -/
def StructureBuilder.add_block (b : StructureBuilder) (block : Block) : StructureBuilder :=
  let palette_block : PaletteBlock := ⟨block.name, block.properties⟩
  let found := listPosition palette_block b.palette
  let index := match found with
    | some index => index
    | none => b.palette.length
  let palette := match found with
    | some _ => b.palette
    | none => b.palette ++ [palette_block]
  { size := Coordinate3.max3 b.size (block.pos.add ⟨1, 1, 1⟩)
    palette := palette
    blocks := b.blocks ++ [⟨(index : Int), [block.pos.c0, block.pos.c1, block.pos.c2], block.nbt⟩] }

/-- Embeds `StructureBuilder::build`. -/
def StructureBuilder.build (b : StructureBuilder) : Structure :=
  ⟨2724, [b.size.c0, b.size.c1, b.size.c2], b.palette, b.blocks, []⟩

/-- Any sequence of `add_block` calls starting from `StructureBuilder::new`. -/
def addBlocks (bs : List Block) : StructureBuilder :=
  List.foldl StructureBuilder.add_block StructureBuilder.new bs

/-- The invariant of C7 on a builder state. -/
def BuilderInv (b : StructureBuilder) : Prop :=
  (∀ sb ∈ b.blocks, 0 ≤ sb.state ∧ sb.state < b.palette.length) ∧ b.palette.Nodup

/-! ## The cuboid space-filling curve (src/placement.rs)

`current.1 % 2 == 0` on Rust `i32` holds exactly when the value is even,
which coincides with `Int.emod _ 2 = 0`, so the parity tests below are
faithful also for negative inputs. -/

/-- Embeds `direction_in_cuboid_curve` (src/placement.rs): advance along X
(direction alternating with the parities of Y and Z), else along Y
(direction alternating with the parity of Z), else along Z, else stop. -/
def direction_in_cuboid_curve (current size : Coordinate3 Int) : Option Direction3 :=
  if current.c0 ≠ (if (current.c1 % 2 = 0 ↔ current.c2 % 2 = 0) then size.c0 - 1 else 0) then
    some (if (current.c1 % 2 = 0 ↔ current.c2 % 2 = 0) then Direction3.East else Direction3.West)
  else if current.c1 ≠ (if current.c2 % 2 = 0 then size.c1 - 1 else 0) then
    some (if current.c2 % 2 = 0 then Direction3.Up else Direction3.Down)
  else if current.c2 ≠ size.c2 - 1 then
    some Direction3.South
  else
    none

/-- Embeds the `Iterator for CuboidCurve` loop (src/placement.rs), unrolled
`fuel` times: each `next()` yields the current cell together with its
direction and advances by that direction's unit vector; when no direction
remains (`direction?` short-circuits) the iterator ends, leaving the last
corner for the clean-up command block.  Any `fuel ≥` the cuboid volume
provably exhausts the iterator (see `cuboidCurveFrom_length`). -/
def cuboidCurveFrom (size : Coordinate3 Int) :
    Coordinate3 Int → Nat → List (Coordinate3 Int × Direction3)
  | _, 0 => []
  | c, fuel + 1 =>
    match direction_in_cuboid_curve c size with
    | none => []
    | some d => (c, d) :: cuboidCurveFrom size (c.add (d.as_coordinate 1 0)) fuel

/-- Membership in the bounding cuboid `[0, size)`. -/
def inCuboid (c size : Coordinate3 Int) : Prop :=
  0 ≤ c.c0 ∧ c.c0 < size.c0 ∧ 0 ≤ c.c1 ∧ c.c1 < size.c1 ∧ 0 ≤ c.c2 ∧ c.c2 < size.c2

instance (c size : Coordinate3 Int) : Decidable (inCuboid c size) := by
  unfold inCuboid
  infer_instance

/-- The rank of a cell along the snake: the curve visits cells in strictly
increasing rank order (`curve_step`). -/
def snakeIdx (size c : Coordinate3 Int) : Int :=
  c.c2 * size.c0 * size.c1 +
    (if c.c2 % 2 = 0 then c.c1 else size.c1 - 1 - c.c1) * size.c0 +
    (if (c.c1 % 2 = 0 ↔ c.c2 % 2 = 0) then c.c0 else size.c0 - 1 - c.c0)

/-! ## Commands and command-block generation (src/lib.rs, src/structure/mod.rs,
src/placement.rs) -/

/-- Embeds `Command` (src/lib.rs): a Minecraft command with an optional
custom name. -/
structure Command where
  name : Option String
  command : String

/-- Modelled from the spec: `src/json.rs` is declared in `lib.rs` but missing
from the sources.  `escape_json` escapes a string for embedding in a JSON
string literal; the commands it appears in are opaque text to every claim. -/
def escape_json (s : String) : String :=
  s.data.foldl
    (fun acc c =>
      if c = '"' ∨ c = '\\' then (acc.push '\\').push c else acc.push c)
    ""

/-- Modelled from the spec: `src/json.rs` is missing from the sources.
`create_json_text_component` wraps a string into a JSON text component;
its exact output is opaque text to every claim. -/
def create_json_text_component (text : String) : String :=
  "\x7b\"text\":\"" ++ escape_json text ++ "\"\x7d"

/-- Embeds `Command::get_name_as_json`. -/
def Command.get_name_as_json (c : Command) : Option String :=
  c.name.map create_json_text_component

/-- Embeds `CommandBlockKind` (src/structure/mod.rs). -/
inductive CommandBlockKind where
  | Impulse
  | Chain
  | Repeat
deriving DecidableEq, Repr

/-- Embeds `CommandBlockKind::block_name`. -/
def CommandBlockKind.block_name : CommandBlockKind → String
  | CommandBlockKind.Impulse => "minecraft:command_block"
  | CommandBlockKind.Chain => "minecraft:chain_command_block"
  | CommandBlockKind.Repeat => "minecraft:repeating_command_block"

/-- Embeds `new_command_block` (src/structure/mod.rs).  The `HashMap` NBT
entries are kept in insertion order; they are never compared. -/
def new_command_block (kind : CommandBlockKind) (name : Option String) (command : String)
    (conditional always_active : Bool) (facing : Direction3) (pos : Coordinate3 Int) : Block :=
  let properties := [(("facing" : String), facing.as_str)]
  let properties :=
    if conditional then btreeInsert ("conditional") ("true") properties else properties
  let nbt := [(("Command" : String), Nbt.str command)]
  let nbt :=
    match name with
    | some n => nbt ++ [(("CustomName" : String), Nbt.str n)]
    | none => nbt
  let nbt := if always_active then nbt ++ [(("auto" : String), Nbt.byte 1)] else nbt
  ⟨kind.block_name, pos, properties, some (Nbt.compound nbt)⟩

/-- Embeds `new_structure_block` (src/structure/mod.rs). -/
def new_structure_block (name mode : String) (pos : Coordinate3 Int) : Block :=
  ⟨"minecraft:structure_block", pos, [],
    some (Nbt.compound [(("name" : String), Nbt.str name), (("mode" : String), Nbt.str mode)])⟩

/-- Embeds the `NAMESPACE` constant (src/lib.rs). -/
def NAMESPACE : String := "minect"

/-- Embeds `summon_connection_entity_command` (src/placement.rs). -/
def summon_connection_entity_command (connection_id : String) : String :=
  "execute positioned ~ ~2 ~ align xyz unless entity @e[type=area_effect_cloud," ++
    "dx=1,dy=1,dz=1,tag=minect_connection,tag=minect_connection+" ++ connection_id ++
    "] run summon area_effect_cloud ~.5 ~.5 ~.5 \x7bDuration:2147483647,CustomName:\"" ++
    escape_json (create_json_text_component connection_id) ++
    "\",Tags:[minect_connection,minect_connection+" ++ connection_id ++ "]\x7d"

/-- Embeds `generate_basic_structure` (src/placement.rs): two structure
blocks whose structure name embeds the connection id and the next batch id,
a stone block, the impulse command block resetting execution order, a
redstone block and an activator rail. -/
def generate_basic_structure (connection_id : String) (next_structure_id : Nat) : List Block :=
  [new_structure_block (NAMESPACE ++ ":" ++ connection_id ++ "/" ++ toString next_structure_id)
      ("LOAD") ⟨0, 0, 0⟩,
    ⟨"minecraft:stone", ⟨0, 1, 0⟩, [], none⟩,
    new_structure_block (NAMESPACE ++ ":" ++ connection_id ++ "/" ++ toString next_structure_id)
      ("CORNER") ⟨0, 2, 0⟩,
    new_command_block CommandBlockKind.Impulse none
      ("setblock ~ ~ ~ repeating_command_block[facing=east]\x7bCommand:\"" ++
        escape_json (summon_connection_entity_command connection_id) ++ "\",auto:true\x7d")
      false true Direction3.East ⟨0, 3, 0⟩,
    ⟨"minecraft:redstone_block", ⟨0, 4, 0⟩, [], none⟩,
    ⟨"minecraft:activator_rail", ⟨0, 5, 0⟩, [], none⟩]

/-- Embeds `CMD_BLOCK_OFFSET` (src/placement.rs). -/
def CMD_BLOCK_OFFSET : Coordinate3 Int := ⟨0, 0, 8⟩

/-- Embeds `MAX_SIZE` (src/placement.rs): 16 × 255 × 8. -/
def MAX_SIZE : Coordinate3 Int := ⟨16, 255, 8⟩

/-- Embeds `MAX_LEN` (src/placement.rs): `16 * 255 * 8 = 32640`. -/
def MAX_LEN : Nat := 16 * 255 * 8

/-- The full yield of the `CuboidCurve` iterator: fuel equal to the cuboid
volume provably exhausts it (`cuboidCurveFrom_length`). -/
def cuboidCurveList (size : Coordinate3 Int) : List (Coordinate3 Int × Direction3) :=
  cuboidCurveFrom size ⟨0, 0, 0⟩ (size.c0 * size.c1 * size.c2).toNat

/-- Models the `warn!` call of `generate_command_blocks` (src/placement.rs):
fired iff `commands_len > MAX_LEN`, carrying the attempted count and the
limit (the format arguments of the message). -/
def generate_command_blocks_warning (commands_len : Nat) : Option (Nat × Nat) :=
  if commands_len > MAX_LEN then some (commands_len, MAX_LEN) else none

/-- Embeds `generate_command_blocks` (src/placement.rs): zip the commands
with the orientation-mapped cuboid curve; the cell at the origin becomes an
impulse command block, every other cell a chain command block. -/
def generate_command_blocks (commands : List Command) (commands_len : Nat) : List Block :=
  let _warning := generate_command_blocks_warning commands_len
  let max_size := (Orientation3.XZY).inverse.orient_coordinate MAX_SIZE
  let curve := (cuboidCurveList max_size).map
    (fun p => ((Orientation3.XZY).orient_coordinate p.1, (Orientation3.XZY).orient_direction p.2))
  (commands.zip curve).map
    (fun cb =>
      let coordinate := cb.2.1
      let direction := cb.2.2
      let first := coordinate = (⟨0, 0, 0⟩ : Coordinate3 Int)
      let kind := if first then CommandBlockKind.Impulse else CommandBlockKind.Chain
      new_command_block kind cb.1.get_name_as_json cb.1.command false true direction
        (coordinate.add CMD_BLOCK_OFFSET))

/-- Embeds `generate_structure` (src/placement.rs). -/
def generate_structure (identifier : String) (next_id : Nat)
    (commands : List Command) (commands_len : Nat) : Structure :=
  let builder := (generate_basic_structure identifier next_id).foldl
    StructureBuilder.add_block StructureBuilder.new
  let builder := (generate_command_blocks commands commands_len).foldl
    StructureBuilder.add_block builder
  builder.build

/-! ## The publish path of `MinecraftConnection::execute_commands` (src/lib.rs)

The call is a straight line of I/O steps; the model below passes the
relevant on-disk state explicitly and lets an environment of booleans pick
which I/O primitive (if any) fails, at the granularity of the source's
individually error-mapped calls.  `init_loaded_listener` performs no
filesystem mutation and is omitted; opening the counter file with
`create(true)` leaves absent-or-empty content as `""` either way. -/

/-- Embeds `enable_logging_command` (src/command.rs). -/
def enable_logging_command : String := "function minect:enable_logging"

/-- Embeds `reset_logging_command` (src/command.rs). -/
def reset_logging_command : String := "function minect:reset_logging"

/-- Embeds `summon_named_entity_command` (src/command.rs). -/
def summon_named_entity_command (name : String) : String :=
  "summon area_effect_cloud ~ ~ ~ \x7b\"CustomName\":\"" ++
    escape_json (create_json_text_component name) ++ "\"\x7d"

/-- Embeds `add_implicit_commands` (src/lib.rs): prepend the
enable-logging command and the loaded-report command; place the
reset-logging command first or last depending on the flag; `commands_len`
counts the first commands plus the caller's commands (not `last_cmds`). -/
def add_implicit_commands (id : Nat) (commands : List Command)
    (enable_logging_automatically : Bool) : List Command × Nat :=
  let first_cmds : List Command :=
    [⟨none, enable_logging_command⟩,
      ⟨some ("minect_loaded"), summon_named_entity_command ("minect_loaded_" ++ toString id)⟩]
  let first_cmds :=
    if !enable_logging_automatically then first_cmds ++ [⟨none, reset_logging_command⟩]
    else first_cmds
  let last_cmds : List Command :=
    if !enable_logging_automatically then [] else [⟨none, reset_logging_command⟩]
  let commands_len := first_cmds.length + commands.length
  (first_cmds ++ commands ++ last_cmds, commands_len)

/-- The I/O step of `execute_commands` that failed, one per individually
error-mapped call of the source. -/
inductive ExecErr where
  | datapack
  | createDir
  | openFile
  | lockFile
  | readFile
  | parseCounter
  | createTmp
  | renameTmp
  | setLenId
  | seekId
  | writeIdFile
deriving DecidableEq, Repr

/-- Which I/O primitive (if any) fails during one `execute_commands` call. -/
structure Env where
  failDatapack : Bool
  failCreateDir : Bool
  failOpen : Bool
  failLock : Bool
  failRead : Bool
  failCreateTmp : Bool
  failRename : Bool
  failSetLen : Bool
  failSeek : Bool
  failWrite : Bool

/-- The on-disk state `execute_commands` touches: the datapack directory,
the per-connection structures directory, the counter file's content, the
temporary structure file and the canonical `<id>.nbt` files keyed by id. -/
structure WorldFS where
  datapackExists : Bool
  structuresDirExists : Bool
  counter : String
  tmp : Option Structure
  nbtFiles : List (Nat × Structure)

/-- Embeds `write_id` (src/lib.rs): truncate the counter file (`set_len(0)`),
seek to its beginning, then write the decimal id; each call can fail
individually, and a failure after the truncation leaves the file empty. -/
def write_id (env : Env) (id : Nat) (fs : WorldFS) : WorldFS × Option ExecErr :=
  if env.failSetLen then (fs, some ExecErr.setLenId) else
  let fs := { fs with counter := "" }
  if env.failSeek then (fs, some ExecErr.seekId) else
  if env.failWrite then (fs, some ExecErr.writeIdFile) else
  ({ fs with counter := toString id }, none)

/-- The steps of `execute_commands` under the counter-file lock: open and
lock the counter file, read the incremented id, generate the structure,
write it to the temporary file, rename it to `<id>.nbt` (replacing any file
of that name), and only then persist the id via `write_id`. -/
def publish_steps (env : Env) (identifier : String)
    (enable_logging_automatically : Bool) (commands : List Command)
    (fs : WorldFS) : WorldFS × Option ExecErr :=
  if env.failOpen then (fs, some ExecErr.openFile) else
  if env.failLock then (fs, some ExecErr.lockFile) else
  if env.failRead then (fs, some ExecErr.readFile) else
  match read_incremented_id fs.counter with
  | Except.error _ => (fs, some ExecErr.parseCounter)
  | Except.ok id =>
    let next_id := (id + 1) % 2 ^ 64
    let withImplicit := add_implicit_commands id commands enable_logging_automatically
    let structureVal := generate_structure identifier next_id withImplicit.1 withImplicit.2
    if env.failCreateTmp then (fs, some ExecErr.createTmp) else
    let fs := { fs with tmp := some structureVal }
    if env.failRename then (fs, some ExecErr.renameTmp) else
    let fs :=
      { fs with
        tmp := none
        nbtFiles := (id, structureVal) :: fs.nbtFiles.filter (fun p => p.1 != id) }
    write_id env id fs

/-- Embeds `MinecraftConnection::execute_commands` (src/lib.rs): create the
datapack if missing, create the structures directory, then run the locked
publish steps (`publish_steps`). -/
def execute_commands (env : Env) (identifier : String)
    (enable_logging_automatically : Bool) (commands : List Command)
    (fs : WorldFS) : WorldFS × Option ExecErr :=
  if !fs.datapackExists && env.failDatapack then (fs, some ExecErr.datapack) else
  let fs := if !fs.datapackExists then { fs with datapackExists := true } else fs
  if env.failCreateDir then (fs, some ExecErr.createDir) else
  publish_steps env identifier enable_logging_automatically commands
    { fs with structuresDirExists := true }

/-- The structure a successful call with counter content yielding `id`
publishes. -/
def publishedStructure (identifier : String) (enable_logging_automatically : Bool)
    (commands : List Command) (id : Nat) : Structure :=
  generate_structure identifier ((id + 1) % 2 ^ 64)
    (add_implicit_commands id commands enable_logging_automatically).1
    (add_implicit_commands id commands enable_logging_automatically).2

/-- The environment in which every I/O primitive succeeds. -/
def envAllOk : Env :=
  ⟨false, false, false, false, false, false, false, false, false, false⟩

/-- The environment in which only `write_id`'s final write fails. -/
def envWriteFail : Env :=
  ⟨false, false, false, false, false, false, false, false, false, true⟩

/-- A world with datapack and structures directory present, counter content
`"5"`, no temporary file and no structure files. -/
def fsFive : WorldFS := ⟨true, true, "5", none, []⟩

/-! ## The chain placement engine (src/structure/placement.rs)

This is the earlier placement engine of the repository, which supports
conditional commands.  The `Command` trait is modelled by a conditionality
predicate `isCond` on an abstract command type. -/

/-- Embeds `CommandBlock<C>` (src/structure/placement.rs). -/
structure PCommandBlock (C : Type) where
  command : Option C
  coordinate : Coordinate3 Int
  direction : Direction3

/-- Embeds the state update of `Iterator for QuaterSpiralCurve`
(src/structure/placement.rs); each branch moves exactly one unit in `x` or
`z`.  The spiral never leaves the non-negative quadrant, where Rust's `%`
and `Int.emod` agree. -/
def spiralStep (p : Int × Int) : Int × Int :=
  if p.1 > p.2 ∨ (p.1 = p.2 ∧ p.1 % 2 = 0) then
    if p.1 % 2 = 1 then (p.1, p.2 + 1)
    else if p.2 = 0 then (p.1 + 1, p.2)
    else (p.1, p.2 - 1)
  else
    if p.2 % 2 = 0 then (p.1 + 1, p.2)
    else if p.1 = 0 then (p.1, p.2 + 1)
    else (p.1 - 1, p.2)

/-- The `n`-th `(x, z)` pair yielded by `QuaterSpiralCurve` starting at the
origin. -/
def spiral (n : Nat) : Int × Int :=
  spiralStep^[n] (0, 0)

/-- The `n`-th coordinate of the flat-mapped curve of `place_commands`: the
spiral cell `n / prim_size` unfolded along `y`, forwards when the parities
of `x` and `z` agree, backwards otherwise. -/
def flatCoord (prim : Nat) (n : Nat) : Coordinate3 Int :=
  let xz := spiral (n / prim)
  let r := n % prim
  let forwards := (xz.1 % 2 = 0) ↔ (xz.2 % 2 = 0)
  ⟨xz.1, ((if forwards then r else prim - 1 - r : Nat) : Int), xz.2⟩

/-- The direction attached to curve index `n`: the code's
`Direction3::try_from(*next - current).unwrap()`.  Consecutive flat-curve
cells are always axis-adjacent, so the `unwrap` never panics; the `getD`
default is never reached (within a column this is `dirAt_vert` below). -/
def dirAt (prim : Nat) (n : Nat) : Direction3 :=
  (Direction3.tryFromCoordinate ((flatCoord prim (n + 1)).sub (flatCoord prim n))).getD
    Direction3.East

/-- Embeds `max_cond_len` (src/structure/placement.rs) exactly as written:
the running count is never reset on an unconditional command, so the
function returns at least the total number of conditional commands (an
overestimate of the longest run, which only enlarges `prim_size`). -/
def max_cond_len {C : Type} (isCond : C → Bool) (chain : List C) : Nat :=
  let result := chain.foldl
    (fun acc c => if isCond c then (acc.1, acc.2 + 1) else (max acc.1 acc.2, acc.2))
    (0, 0)
  max result.1 result.2

/-- The length of the leading run of conditional commands of a list. -/
def condLenFrom {C : Type} (isCond : C → Bool) : List C → Nat
  | [] => 0
  | c :: rest => if isCond c then condLenFrom isCond rest + 1 else 0

/-- Embeds the `scan` closure of `place_commands` (running over the reversed
chain): a conditional command increments the running length; an
unconditional command closing a non-empty run is annotated with the run
length plus one (it is part of the sequence for spacing) and resets it. -/
def annotScan {C : Type} (isCond : C → Bool) : Nat → List C → List (C × Nat)
  | _, [] => []
  | s, c :: rest =>
    if isCond c then (c, s + 1) :: annotScan isCond (s + 1) rest
    else if s ≠ 0 then (c, s + 1) :: annotScan isCond 0 rest
    else (c, 0) :: annotScan isCond 0 rest

/-- The state of `annotScan` after consuming a list. -/
def stFinal {C : Type} (isCond : C → Bool) : Nat → List C → Nat
  | s, [] => s
  | s, c :: rest => stFinal isCond (if isCond c then s + 1 else 0) rest

/-- Embeds the `rev … scan … collect … reverse` annotation pipeline of
`place_commands`. -/
def annotate {C : Type} (isCond : C → Bool) (chain : List C) : List (C × Nat) :=
  (annotScan isCond 0 chain.reverse).reverse

/-- Embeds the placement loop of `place_commands` over the annotated chain:
`n` is the next unconsumed curve index; a command opening (or inside) a
conditional sequence that does not fit before the next corner first emits
`space_until_corner + 1` no-op cells, pushing itself past the corner. -/
def placeGo {C : Type} (prim : Nat) : Nat → List (C × Nat) → List (PCommandBlock C)
  | _, [] => []
  | n, (c, a) :: rest =>
    if a ≠ 0 ∧ prim - 1 - n % prim < a then
      (List.range (prim - 1 - n % prim + 1)).map
        (fun i => ⟨none, flatCoord prim (n + i), dirAt prim (n + i)⟩) ++
      ⟨some c, flatCoord prim (n + (prim - 1 - n % prim + 1)),
          dirAt prim (n + (prim - 1 - n % prim + 1))⟩ ::
        placeGo prim (n + (prim - 1 - n % prim + 1) + 1) rest
    else
      ⟨some c, flatCoord prim n, dirAt prim n⟩ :: placeGo prim (n + 1) rest

/-- The curve index after the placement loop consumes a list (parallel
recursion to `placeGo`). -/
def placeEnd {C : Type} (prim : Nat) : Nat → List (C × Nat) → Nat
  | n, [] => n
  | n, (_, a) :: rest =>
    if a ≠ 0 ∧ prim - 1 - n % prim < a then
      placeEnd prim (n + (prim - 1 - n % prim + 1) + 1) rest
    else
      placeEnd prim (n + 1) rest

/-- Embeds `place_commands` (src/structure/placement.rs).  The source
computes `estimated_side_length` with `f32` cube-root arithmetic; that value
is abstracted as the parameter `est`, so every theorem below holds for
whatever the float computation returns.  `prim_size` is its maximum with
`max_cond_len + 2`. -/
def place_commands {C : Type} (isCond : C → Bool) (est : Nat) (chain : List C) :
    List (PCommandBlock C) :=
  let prim := max (max_cond_len isCond chain + 2) est
  placeGo prim 0 (annotate isCond chain)

/-- C5: For every `Orientation3` `o` and every `Coordinate3` `c`,
`inverse(o).orient_coordinate(o.orient_coordinate(c)) == c`, and
`inverse(inverse(o)) == o`: the 48 orientations invert as claimed, with
`inverse` an involution. -/
theorem orientation3_inverse_group (o : Orientation3) (c : Coordinate3 Int) :
    o.inverse.orient_coordinate (o.orient_coordinate c) = c ∧
    o.inverse.inverse = o := by
  constructor
  · cases o <;>
      simp [Orientation3.orient_coordinate, Orientation3.inverse,
        Orientation3.direction1, Orientation3.direction2, Orientation3.direction3,
        Direction3.is_negative, Direction3.is_positive, Direction3.axis,
        Coordinate3.set]
  · cases o <;> rfl

/-- C8: evaluation at the failing input. The line `[01:02:03] …` parses, but
`Display` renders it as `[1:2:3] …` (time fields are not zero-padded), and
that rendering no longer parses: the parse/format round trip claimed by the
spec fails for any event with a time field below 10. -/
theorem logevent_roundtrip_fails_at_0x_times :
    LogEvent.from_str ("[01:02:03] [Server thread/INFO]: [a: b]") =
      some ⟨1, 2, 3, "a", "b"⟩ ∧
    LogEvent.toLine ⟨1, 2, 3, "a", "b"⟩ =
      "[1:2:3] [Server thread/INFO]: [a: b]" ∧
    LogEvent.from_str (LogEvent.toLine ⟨1, 2, 3, "a", "b"⟩) = none := by
  refine ⟨?_, ?_, ?_⟩ <;> rfl

/-- C2: on every counter-file content, `read_incremented_id` returns 0 for
empty content, the parsed value plus one with wrapping `u64` arithmetic for
content that parses as `u64`, and a hard error (no guessed value) for
non-empty content that does not parse. -/
theorem read_incremented_id_cases (content : String) :
    (content = "" → read_incremented_id content = Except.ok 0) ∧
    (∀ v, parseU64 content = some v →
      read_incremented_id content = Except.ok ((v + 1) % 2 ^ 64)) ∧
    (content ≠ "" → parseU64 content = none →
      read_incremented_id content = Except.error ()) := by
  refine ⟨fun h => by simp [read_incremented_id, h], fun v hv => ?_, fun h hn => ?_⟩
  · have hne : content ≠ "" := by
      rintro rfl
      simp [parseU64] at hv
    simp [read_incremented_id, hne, hv]
  · simp [read_incremented_id, h, hn]

/-- C2 witness: the empty content yields 0; the maximal `u64` value parses
and wraps to id 0; non-numeric content is a hard error. -/
theorem read_incremented_id_cases_witness :
    read_incremented_id ("") = Except.ok 0 ∧
    parseU64 ("18446744073709551615") = some (2 ^ 64 - 1) ∧
    read_incremented_id ("18446744073709551615") = Except.ok 0 ∧
    read_incremented_id ("17abc") = Except.error () := by
  have hmax : parseU64 ("18446744073709551615") = some (2 ^ 64 - 1) := by rfl
  refine ⟨(read_incremented_id_cases ("")).1 rfl, hmax, ?_, ?_⟩
  · have h := (read_incremented_id_cases ("18446744073709551615")).2.1 _ hmax
    rw [h]
    norm_num
  · exact (read_incremented_id_cases ("17abc")).2.2 (by decide) (by rfl)

/-- C10: `MinecraftConnection::builder` panics if and only if the identifier
contains a character outside `0-9`, `A-Z`, `a-z`, `+`, `-`, `.`, `_`; an
identifier made only of those characters builds without panicking. -/
theorem builder_panics_iff_disallowed_char (identifier world_dir : String) :
    MinecraftConnectionBuilder.new identifier world_dir = none ↔
      ∃ c ∈ identifier.data,
        ¬ (('0' ≤ c ∧ c ≤ '9') ∨ ('A' ≤ c ∧ c ≤ 'Z') ∨ ('a' ≤ c ∧ c ≤ 'z') ∨
          c = '+' ∨ c = '-' ∨ c = '.' ∨ c = '_') := by
  unfold MinecraftConnectionBuilder.new
  have hsplit :
      (if validate_identifier_panics identifier then none
        else some (⟨identifier, world_dir, none, true⟩ : MinecraftConnectionBuilder)) = none ↔
        validate_identifier_panics identifier = true := by
    split <;> simp_all
  rw [hsplit]
  unfold validate_identifier_panics
  simp only [Bool.not_eq_true', List.isEmpty_eq_false_iff_exists_mem,
    List.mem_filter, is_allowed_in_identifier]
  constructor
  · rintro ⟨c, hc, hall⟩
    refine ⟨c, hc, ?_⟩
    simp only [Bool.not_eq_true', Bool.or_eq_false_iff, decide_eq_false_iff_not] at hall
    tauto
  · rintro ⟨c, hc, hbad⟩
    refine ⟨c, hc, ?_⟩
    simp only [Bool.not_eq_true', Bool.or_eq_false_iff, decide_eq_false_iff_not]
    tauto

/-- C10 witness: an identifier with a space panics; one made only of allowed
characters builds. -/
theorem builder_panics_iff_disallowed_char_witness :
    MinecraftConnectionBuilder.new ("a b") ("w") = none ∧
    MinecraftConnectionBuilder.new ("Ab-3_.+") ("w") ≠ none := by
  constructor
  · exact (builder_panics_iff_disallowed_char ("a b") ("w")).2 ⟨' ', by decide, by decide⟩
  · intro h
    obtain ⟨c, hc, hbad⟩ := (builder_panics_iff_disallowed_char ("Ab-3_.+") ("w")).1 h
    have hall : ∀ c ∈ ("Ab-3_.+" : String).data,
        (('0' ≤ c ∧ c ≤ '9') ∨ ('A' ≤ c ∧ c ≤ 'Z') ∨ ('a' ≤ c ∧ c ≤ 'z') ∨
          c = '+' ∨ c = '-' ∨ c = '.' ∨ c = '_') := by decide
    exact hbad (hall c hc)

theorem listPosition_some_lt {α : Type} [DecidableEq α] (x : α) :
    ∀ (l : List α) i, listPosition x l = some i → i < l.length := by
  intro l
  induction l with
  | nil => intro i h; simp [listPosition] at h
  | cons a l ih =>
    intro i h
    by_cases ha : a = x
    · simp [listPosition, ha] at h
      simp [List.length_cons]
      omega
    · simp only [listPosition, ha, if_false] at h
      match hfound : listPosition x l with
      | none => rw [hfound] at h; simp at h
      | some j =>
        rw [hfound] at h
        simp at h
        have := ih j hfound
        simp [List.length_cons]
        omega

theorem listPosition_none_not_mem {α : Type} [DecidableEq α] (x : α) :
    ∀ (l : List α), listPosition x l = none → x ∉ l := by
  intro l
  induction l with
  | nil => intro _; simp
  | cons a l ih =>
    intro h
    by_cases ha : a = x
    · simp [listPosition, ha] at h
    · simp only [listPosition, ha, if_false] at h
      match hfound : listPosition x l with
      | none => simp [List.mem_cons]; exact ⟨fun hx => ha hx.symm, ih hfound⟩
      | some j => rw [hfound] at h; simp at h

theorem add_block_preserves_inv (b : StructureBuilder) (blk : Block)
    (h : BuilderInv b) : BuilderInv (b.add_block blk) := by
  obtain ⟨hstate, hnodup⟩ := h
  unfold StructureBuilder.add_block
  match hfound : listPosition (⟨blk.name, blk.properties⟩ : PaletteBlock) b.palette with
  | some i =>
    refine ⟨?_, by simpa [hfound] using hnodup⟩
    intro sb hsb
    simp only [hfound] at hsb ⊢
    rcases List.mem_append.1 hsb with hold | hnew
    · exact hstate sb hold
    · have hi := listPosition_some_lt _ _ _ hfound
      simp at hnew
      subst hnew
      constructor
      · positivity
      · simpa using hi
  | none =>
    have hnotmem := listPosition_none_not_mem _ _ hfound
    refine ⟨?_, ?_⟩
    · intro sb hsb
      simp only [hfound] at hsb ⊢
      rcases List.mem_append.1 hsb with hold | hnew
      · have := hstate sb hold
        simp only [List.length_append, List.length_cons, List.length_nil]
        omega
      · simp at hnew
        subst hnew
        simp only [List.length_append, List.length_cons, List.length_nil]
        constructor
        · positivity
        · push_cast
          omega
    · simp only [hfound]
      rw [List.nodup_append]
      exact ⟨hnodup, List.nodup_singleton _, by simpa using hnotmem⟩

theorem addBlocks_inv_aux (bs : List Block) :
    ∀ b, BuilderInv b → BuilderInv (List.foldl StructureBuilder.add_block b bs) := by
  induction bs with
  | nil => intro b h; exact h
  | cons blk bs ih =>
    intro b h
    exact ih _ (add_block_preserves_inv b blk h)

theorem addBlocks_size_aux (bs : List Block) :
    ∀ b, (List.foldl StructureBuilder.add_block b bs).size =
      List.foldl (fun acc blk => Coordinate3.max3 acc (blk.pos.add ⟨1, 1, 1⟩)) b.size bs := by
  induction bs with
  | nil => intro b; rfl
  | cons blk bs ih =>
    intro b
    rw [List.foldl_cons, List.foldl_cons, ih]
    rfl

/-- C7: after any sequence of `add_block` calls every block entry's state is
a valid palette index, the palette has no two structurally equal entries,
the size is the component-wise maximum of `pos + (1,1,1)` over all added
positions starting from `(0,0,0)`, and `build()` keeps size, palette and
blocks unchanged. -/
theorem structure_builder_invariants (bs : List Block) :
    (∀ sb ∈ (addBlocks bs).blocks, 0 ≤ sb.state ∧ sb.state < (addBlocks bs).palette.length) ∧
    (addBlocks bs).palette.Nodup ∧
    (addBlocks bs).size =
      List.foldl (fun acc blk => Coordinate3.max3 acc (blk.pos.add ⟨1, 1, 1⟩)) ⟨0, 0, 0⟩ bs ∧
    (addBlocks bs).build.palette = (addBlocks bs).palette ∧
    (addBlocks bs).build.blocks = (addBlocks bs).blocks ∧
    (addBlocks bs).build.size =
      [(addBlocks bs).size.c0, (addBlocks bs).size.c1, (addBlocks bs).size.c2] := by
  have hinv := addBlocks_inv_aux bs StructureBuilder.new ⟨by simp [StructureBuilder.new], by simp [StructureBuilder.new]⟩
  exact ⟨hinv.1, hinv.2, addBlocks_size_aux bs StructureBuilder.new, rfl, rfl, rfl⟩

theorem curve_step (size c : Coordinate3 Int) (d : Direction3)
    (hc : inCuboid c size)
    (hd : direction_in_cuboid_curve c size = some d) :
    inCuboid (c.add (d.as_coordinate 1 0)) size ∧
    snakeIdx size (c.add (d.as_coordinate 1 0)) = snakeIdx size c + 1 := by
  obtain ⟨c0, c1, c2⟩ := c
  obtain ⟨s0, s1, s2⟩ := size
  simp only [inCuboid] at hc ⊢
  obtain ⟨hx0, hx1, hy0, hy1, hz0, hz1⟩ := hc
  unfold direction_in_cuboid_curve at hd
  rcases Int.emod_two_eq c1 with h1 | h1 <;> rcases Int.emod_two_eq c2 with h2 | h2 <;>
    simp only [h1, h2] at hd <;> norm_num at hd <;>
    split_ifs at hd with ha hb hc' <;>
    injection hd with hd <;> subst hd <;>
    simp only [Direction3.as_coordinate, Coordinate3.add, snakeIdx] <;>
    refine ⟨by omega, ?_⟩ <;>
    rcases Int.emod_two_eq (c1 + 1) with hp1 | hp1 <;>
    rcases Int.emod_two_eq (c1 - 1) with hp2 | hp2 <;>
    rcases Int.emod_two_eq (c2 + 1) with hp3 | hp3 <;>
    first
    | (exfalso; omega)
    | (norm_num [h1, h2, hp1, hp2, hp3]
       (try subst ha)
       (try subst hb)
       (try (split_ifs <;> try (exfalso; omega)))
       all_goals ring)

theorem snakeIdx_bounds (size c : Coordinate3 Int) (hc : inCuboid c size) :
    0 ≤ snakeIdx size c ∧ snakeIdx size c ≤ size.c0 * size.c1 * size.c2 - 1 := by
  obtain ⟨c0, c1, c2⟩ := c
  obtain ⟨s0, s1, s2⟩ := size
  simp only [inCuboid] at hc
  obtain ⟨hx0, hx1, hy0, hy1, hz0, hz1⟩ := hc
  simp only [snakeIdx]
  have hs0 : (1 : Int) ≤ s0 := by omega
  have hs1 : (1 : Int) ≤ s1 := by omega
  have hxb : 0 ≤ (if ((c1 : Int) % 2 = 0 ↔ c2 % 2 = 0) then c0 else s0 - 1 - c0) ∧
      (if ((c1 : Int) % 2 = 0 ↔ c2 % 2 = 0) then c0 else s0 - 1 - c0) ≤ s0 - 1 := by
    split_ifs <;> omega
  have hyb : 0 ≤ (if (c2 : Int) % 2 = 0 then c1 else s1 - 1 - c1) ∧
      (if (c2 : Int) % 2 = 0 then c1 else s1 - 1 - c1) ≤ s1 - 1 := by
    split_ifs <;> omega
  constructor
  · have h1 : 0 ≤ c2 * s0 * s1 := by positivity
    have h2 : 0 ≤ (if (c2 : Int) % 2 = 0 then c1 else s1 - 1 - c1) * s0 :=
      mul_nonneg hyb.1 (by omega)
    linarith [hxb.1]
  · have h1 : c2 * s0 * s1 ≤ (s2 - 1) * (s0 * s1) := by
      have hstep := mul_le_mul_of_nonneg_right (show c2 ≤ s2 - 1 by omega)
        (show (0 : Int) ≤ s0 * s1 by positivity)
      nlinarith [hstep]
    have h2 : (if (c2 : Int) % 2 = 0 then c1 else s1 - 1 - c1) * s0 ≤ (s1 - 1) * s0 :=
      mul_le_mul_of_nonneg_right hyb.2 (by omega)
    have hr : (s2 - 1) * (s0 * s1) + (s1 - 1) * s0 + (s0 - 1) = s0 * s1 * s2 - 1 := by
      ring
    linarith [hxb.2]

theorem dir_none_idx (size c : Coordinate3 Int)
    (hd : direction_in_cuboid_curve c size = none) :
    snakeIdx size c = size.c0 * size.c1 * size.c2 - 1 := by
  obtain ⟨c0, c1, c2⟩ := c
  obtain ⟨s0, s1, s2⟩ := size
  unfold direction_in_cuboid_curve at hd
  simp only [snakeIdx]
  split_ifs at hd ⊢ <;>
    first
    | exact Option.noConfusion hd
    | (simp only [ne_eq, not_not] at *
       subst_vars
       ring)

theorem cuboidCurveFrom_get (size : Coordinate3 Int) :
    ∀ (fuel : Nat) (c : Coordinate3 Int), inCuboid c size →
      ∀ (n : Nat) p, (cuboidCurveFrom size c fuel).get? n = some p →
        inCuboid p.1 size ∧ snakeIdx size p.1 = snakeIdx size c + n := by
  intro fuel
  induction fuel with
  | zero =>
    intro c _ n p h
    simp [cuboidCurveFrom] at h
  | succ fuel ih =>
    intro c hc n p h
    unfold cuboidCurveFrom at h
    match hd : direction_in_cuboid_curve c size with
    | none =>
      rw [hd] at h
      simp at h
    | some d =>
      rw [hd] at h
      obtain ⟨hc', hidx⟩ := curve_step size c d hc hd
      match n with
      | 0 =>
        simp only [List.get?_cons_zero, Option.some.injEq] at h
        subst h
        exact ⟨hc, by simp⟩
      | n + 1 =>
        simp only [List.get?_cons_succ] at h
        obtain ⟨hp, hpidx⟩ := ih _ hc' n p h
        refine ⟨hp, ?_⟩
        rw [hpidx, hidx]
        push_cast
        ring

theorem cuboidCurveFrom_head (size : Coordinate3 Int) (fuel : Nat)
    (c : Coordinate3 Int) (p : Coordinate3 Int × Direction3)
    (h : (cuboidCurveFrom size c fuel).get? 0 = some p) : p.1 = c := by
  match fuel with
  | 0 => simp [cuboidCurveFrom] at h
  | fuel + 1 =>
    unfold cuboidCurveFrom at h
    match hd : direction_in_cuboid_curve c size with
    | none =>
      rw [hd] at h
      simp at h
    | some d =>
      rw [hd] at h
      simp only [List.get?_cons_zero, Option.some.injEq] at h
      subst h
      rfl

theorem cuboidCurveFrom_adjacent (size : Coordinate3 Int) :
    ∀ (fuel : Nat) (c : Coordinate3 Int) (n : Nat) p q,
      (cuboidCurveFrom size c fuel).get? n = some p →
      (cuboidCurveFrom size c fuel).get? (n + 1) = some q →
      q.1 = p.1.add (p.2.as_coordinate 1 0) := by
  intro fuel
  induction fuel with
  | zero =>
    intro c n p q hp _
    simp [cuboidCurveFrom] at hp
  | succ fuel ih =>
    intro c n p q hp hq
    unfold cuboidCurveFrom at hp hq
    match hd : direction_in_cuboid_curve c size with
    | none =>
      rw [hd] at hp
      simp at hp
    | some d =>
      rw [hd] at hp hq
      match n with
      | 0 =>
        simp only [List.get?_cons_zero, Option.some.injEq] at hp
        simp only [List.get?_cons_succ] at hq
        have hqc := cuboidCurveFrom_head size fuel _ q hq
        subst hp
        exact hqc
      | n + 1 =>
        simp only [List.get?_cons_succ] at hp hq
        exact ih _ n p q hp hq

theorem cuboidCurveFrom_coords_nodup (size : Coordinate3 Int) :
    ∀ (fuel : Nat) (c : Coordinate3 Int), inCuboid c size →
      ((cuboidCurveFrom size c fuel).map Prod.fst).Nodup := by
  intro fuel
  induction fuel with
  | zero =>
    intro c _
    simp [cuboidCurveFrom]
  | succ fuel ih =>
    intro c hc
    unfold cuboidCurveFrom
    match hd : direction_in_cuboid_curve c size with
    | none => simp
    | some d =>
      obtain ⟨hc', hidx⟩ := curve_step size c d hc hd
      simp only [List.map_cons]
      rw [List.nodup_cons]
      refine ⟨?_, ih _ hc'⟩
      intro hmem
      obtain ⟨p, hpmem, hpc⟩ := List.mem_map.1 hmem
      obtain ⟨n, hn⟩ := List.get?_of_mem hpmem
      obtain ⟨_, hpidx⟩ := cuboidCurveFrom_get size fuel _ hc' n p hn
      rw [hpc, hidx] at hpidx
      omega

theorem cuboidCurveFrom_length (size : Coordinate3 Int) :
    ∀ (fuel : Nat) (c : Coordinate3 Int), inCuboid c size →
      ((cuboidCurveFrom size c fuel).length : Int) =
        min (fuel : Int) (size.c0 * size.c1 * size.c2 - 1 - snakeIdx size c) := by
  intro fuel
  induction fuel with
  | zero =>
    intro c hc
    have hb := snakeIdx_bounds size c hc
    simp [cuboidCurveFrom]
    omega
  | succ fuel ih =>
    intro c hc
    unfold cuboidCurveFrom
    match hd : direction_in_cuboid_curve c size with
    | none =>
      have hidx := dir_none_idx size c hd
      simp
      omega
    | some d =>
      obtain ⟨hc', hidx⟩ := curve_step size c d hc hd
      have hlen := ih _ hc'
      have hb := snakeIdx_bounds size _ hc'
      simp only [List.length_cons]
      push_cast
      push_cast at hlen
      omega

/-- C6: for every size with all three components at least 1, the cuboid
curve yields face-adjacent consecutive cells (each next coordinate is the
current one plus the unit vector of the yielded direction), every yielded
coordinate lies in `[0, size)`, and no coordinate is yielded twice. -/
theorem cuboid_curve_adjacent_bounded_nodup (size : Coordinate3 Int) (fuel : Nat)
    (h0 : 1 ≤ size.c0) (h1 : 1 ≤ size.c1) (h2 : 1 ≤ size.c2) :
    (∀ (n : Nat) p q, (cuboidCurveFrom size ⟨0, 0, 0⟩ fuel).get? n = some p →
      (cuboidCurveFrom size ⟨0, 0, 0⟩ fuel).get? (n + 1) = some q →
      q.1 = p.1.add (p.2.as_coordinate 1 0)) ∧
    (∀ p ∈ cuboidCurveFrom size ⟨0, 0, 0⟩ fuel, inCuboid p.1 size) ∧
    ((cuboidCurveFrom size ⟨0, 0, 0⟩ fuel).map Prod.fst).Nodup := by
  have hstart : inCuboid ⟨0, 0, 0⟩ size := by
    simp only [inCuboid]
    omega
  refine ⟨fun n p q hp hq => cuboidCurveFrom_adjacent size fuel _ n p q hp hq, ?_, ?_⟩
  · intro p hp
    obtain ⟨n, hn⟩ := List.get?_of_mem hp
    exact (cuboidCurveFrom_get size fuel _ hstart n p hn).1
  · exact cuboidCurveFrom_coords_nodup size fuel _ hstart

/-- C6 witness: the `2 × 2 × 2` cuboid with enough fuel. -/
theorem cuboid_curve_adjacent_bounded_nodup_witness :
    (1 : Int) ≤ 2 ∧
    ((∀ (n : Nat) p q,
        (cuboidCurveFrom ⟨2, 2, 2⟩ ⟨0, 0, 0⟩ 10).get? n = some p →
        (cuboidCurveFrom ⟨2, 2, 2⟩ ⟨0, 0, 0⟩ 10).get? (n + 1) = some q →
        q.1 = p.1.add (p.2.as_coordinate 1 0)) ∧
      (∀ p ∈ cuboidCurveFrom ⟨2, 2, 2⟩ ⟨0, 0, 0⟩ 10, inCuboid p.1 ⟨2, 2, 2⟩) ∧
      ((cuboidCurveFrom ⟨2, 2, 2⟩ ⟨0, 0, 0⟩ 10).map Prod.fst).Nodup) :=
  ⟨by norm_num,
    cuboid_curve_adjacent_bounded_nodup ⟨2, 2, 2⟩ 10 (by norm_num) (by norm_num) (by norm_num)⟩

theorem cuboidCurveList_max_length :
    (cuboidCurveList ((Orientation3.XZY).inverse.orient_coordinate MAX_SIZE)).length = 32639 := by
  have hsz : (Orientation3.XZY).inverse.orient_coordinate MAX_SIZE =
      (⟨16, 8, 255⟩ : Coordinate3 Int) := by decide
  have hstart : inCuboid ⟨0, 0, 0⟩ (⟨16, 8, 255⟩ : Coordinate3 Int) := by decide
  have h := cuboidCurveFrom_length (⟨16, 8, 255⟩ : Coordinate3 Int)
    (((16 : Int) * 8 * 255).toNat) ⟨0, 0, 0⟩ hstart
  have hidx : snakeIdx (⟨16, 8, 255⟩ : Coordinate3 Int) ⟨0, 0, 0⟩ = 0 := by decide
  rw [hidx] at h
  unfold cuboidCurveList
  rw [hsz]
  norm_num at h ⊢
  omega

theorem generate_command_blocks_length (commands : List Command) (commands_len : Nat) :
    (generate_command_blocks commands commands_len).length = min commands.length 32639 := by
  unfold generate_command_blocks
  rw [List.length_map, List.length_zip, List.length_map, cuboidCurveList_max_length]

/-- C3 counterexample: with `MAX_LEN + 1 = 32641` commands the output length
is `32639 = MAX_LEN − 1`, not `MAX_LEN + 1`: the curve stops one cell short
of the cuboid's last corner (reserved for the clean-up command block) and
`generate_command_blocks` emits no cleanup cell of its own. -/
theorem generate_command_blocks_length_not_limit_plus_one :
    ¬ ((generate_command_blocks (List.replicate 32641 ⟨none, "say hi"⟩) 32641).length =
        MAX_LEN + 1) := by
  rw [generate_command_blocks_length, List.length_replicate]
  norm_num [MAX_LEN]

/-- C3 amended: for every command list whose length exceeds `MAX_LEN`,
`generate_command_blocks` never fails (it is total); it emits a non-fatal
warning naming the attempted command count and the limit (not the dropped
count); the produced cell count never exceeds the limit; and the output
length is exactly `MAX_LEN − 1 = 32639` — the limit minus one, because the
last corner of the cuboid is left free for the clean-up command block, which
is not part of this output. -/
theorem generate_command_blocks_truncates (commands : List Command) (commands_len : Nat)
    (hlen : commands.length = commands_len) (hover : MAX_LEN < commands_len) :
    generate_command_blocks_warning commands_len = some (commands_len, MAX_LEN) ∧
    (generate_command_blocks commands commands_len).length = MAX_LEN - 1 ∧
    (generate_command_blocks commands commands_len).length ≤ MAX_LEN := by
  have hwarn : generate_command_blocks_warning commands_len = some (commands_len, MAX_LEN) := by
    unfold generate_command_blocks_warning
    rw [if_pos hover]
  have hl := generate_command_blocks_length commands commands_len
  rw [hlen] at hl
  refine ⟨hwarn, ?_, ?_⟩ <;> rw [hl] <;> unfold MAX_LEN at hover ⊢ <;> omega

/-- C3 witness: 32641 commands exceed the limit 32640. -/
theorem generate_command_blocks_truncates_witness :
    MAX_LEN < 32641 ∧
    (generate_command_blocks_warning 32641 = some (32641, MAX_LEN) ∧
      (generate_command_blocks (List.replicate 32641 ⟨none, "say hi"⟩) 32641).length =
        MAX_LEN - 1 ∧
      (generate_command_blocks (List.replicate 32641 ⟨none, "say hi"⟩) 32641).length ≤
        MAX_LEN) :=
  ⟨by norm_num [MAX_LEN],
    generate_command_blocks_truncates (List.replicate 32641 ⟨none, "say hi"⟩) 32641
      (by rw [List.length_replicate]) (by norm_num [MAX_LEN])⟩

theorem publish_steps_spec (env : Env) (identifier : String) (auto : Bool)
    (commands : List Command) (fs : WorldFS) :
    ((publish_steps env identifier auto commands fs).1.counter ≠ fs.counter →
      ∃ id, read_incremented_id fs.counter = Except.ok id ∧
        (publish_steps env identifier auto commands fs).1.nbtFiles =
          (id, publishedStructure identifier auto commands id) ::
            fs.nbtFiles.filter (fun p => p.1 != id)) ∧
    (∀ e, (publish_steps env identifier auto commands fs).2 = some e →
      e ≠ ExecErr.seekId → e ≠ ExecErr.writeIdFile →
      (publish_steps env identifier auto commands fs).1.counter = fs.counter) ∧
    ((publish_steps env identifier auto commands fs).2 = none →
      ∃ id, read_incremented_id fs.counter = Except.ok id ∧
        (publish_steps env identifier auto commands fs).1.counter = toString id ∧
        (publish_steps env identifier auto commands fs).1.nbtFiles =
          (id, publishedStructure identifier auto commands id) ::
            fs.nbtFiles.filter (fun p => p.1 != id) ∧
        (publish_steps env identifier auto commands fs).1.tmp = none) := by
  unfold publish_steps write_id publishedStructure
  by_cases h3 : env.failOpen = true
  · simp [h3]
  · simp only [h3, Bool.false_eq_true, if_false, ite_false]
    by_cases h4 : env.failLock = true
    · simp [h4]
    · simp only [h4, Bool.false_eq_true, if_false, ite_false]
      by_cases h5 : env.failRead = true
      · simp [h5]
      · simp only [h5, Bool.false_eq_true, if_false, ite_false]
        rcases hid : read_incremented_id fs.counter with e | id
        · simp
        · by_cases h6 : env.failCreateTmp = true
          · simp [h6]
          · simp only [h6, Bool.false_eq_true, if_false, ite_false]
            by_cases h7 : env.failRename = true
            · simp [h7]
            · simp only [h7, Bool.false_eq_true, if_false, ite_false]
              by_cases h8 : env.failSetLen = true
              · simp [h8]
              · simp only [h8, Bool.false_eq_true, if_false, ite_false]
                by_cases h9 : env.failSeek = true
                · simp only [h9, if_true, ite_true]
                  refine ⟨fun _ => ⟨id, rfl, rfl⟩, ?_, by simp⟩
                  intro e he hne _
                  injection he with he
                  exact absurd he.symm hne
                · simp only [h9, Bool.false_eq_true, if_false, ite_false]
                  by_cases h10 : env.failWrite = true
                  · simp only [h10, if_true, ite_true]
                    refine ⟨fun _ => ⟨id, rfl, rfl⟩, ?_, by simp⟩
                    intro e he _ hne
                    injection he with he
                    exact absurd he.symm hne
                  · simp only [h10, Bool.false_eq_true, if_false, ite_false]
                    refine ⟨fun _ => ⟨id, rfl, rfl⟩, by simp, ?_⟩
                    intro _
                    refine ⟨id, rfl, rfl, rfl, ?_⟩
                    trivial

theorem execute_commands_spec (env : Env) (identifier : String) (auto : Bool)
    (commands : List Command) (fs : WorldFS) :
    ((execute_commands env identifier auto commands fs).1.counter ≠ fs.counter →
      ∃ id, read_incremented_id fs.counter = Except.ok id ∧
        (execute_commands env identifier auto commands fs).1.nbtFiles =
          (id, publishedStructure identifier auto commands id) ::
            fs.nbtFiles.filter (fun p => p.1 != id)) ∧
    (∀ e, (execute_commands env identifier auto commands fs).2 = some e →
      e ≠ ExecErr.seekId → e ≠ ExecErr.writeIdFile →
      (execute_commands env identifier auto commands fs).1.counter = fs.counter) ∧
    ((execute_commands env identifier auto commands fs).2 = none →
      ∃ id, read_incremented_id fs.counter = Except.ok id ∧
        (execute_commands env identifier auto commands fs).1.counter = toString id ∧
        (execute_commands env identifier auto commands fs).1.nbtFiles =
          (id, publishedStructure identifier auto commands id) ::
            fs.nbtFiles.filter (fun p => p.1 != id) ∧
        (execute_commands env identifier auto commands fs).1.tmp = none) := by
  unfold execute_commands
  by_cases h0 : fs.datapackExists = true
  · simp only [h0, Bool.not_true, Bool.false_and, Bool.false_eq_true, if_false, ite_false]
    by_cases h2 : env.failCreateDir = true
    · simp [h2]
    · simp only [h2, Bool.false_eq_true, if_false, ite_false]
      exact publish_steps_spec env identifier auto commands _
  · have h0' : fs.datapackExists = false := by
      revert h0
      cases fs.datapackExists <;> simp
    by_cases h1 : env.failDatapack = true
    · simp [h0', h1]
    · have h1' : env.failDatapack = false := by
        revert h1
        cases env.failDatapack <;> simp
      simp only [h0', h1', Bool.not_false, Bool.true_and, Bool.and_false, Bool.false_eq_true,
        if_false, ite_false, if_true, ite_true]
      by_cases h2 : env.failCreateDir = true
      · simp [h2]
      · simp only [h2, Bool.false_eq_true, if_false, ite_false]
        exact publish_steps_spec env identifier auto commands _

/-- C1 counterexample: starting from counter content `"5"`, a failure of
`write_id`'s final write — after its successful `set_len(0)` truncation —
returns an I/O error while the counter file's content has changed from
`"5"` to `""`: a partial counter mutation on a failing call. -/
theorem execute_commands_counter_mutated_on_write_failure :
    (execute_commands envWriteFail ("conn") true [] fsFive).2 = some ExecErr.writeIdFile ∧
    (execute_commands envWriteFail ("conn") true [] fsFive).1.counter = "" ∧
    fsFive.counter = "5" :=
  ⟨rfl, rfl, rfl⟩

/-- C1 amended: the incremented sequence id is written back to the counter
file only after the structure file has been renamed to `<id>.nbt` — whenever
the counter content changed, the canonical file for the derived id is
present — and any I/O failure in a step up to and including `write_id`'s
truncation returns that error with the counter file's content unchanged;
only a failure of `write_id`'s seek or final write, which run after the
truncation, can instead leave the counter empty. -/
theorem execute_commands_counter_write_ordering (env : Env) (identifier : String)
    (auto : Bool) (commands : List Command) (fs : WorldFS) :
    ((execute_commands env identifier auto commands fs).1.counter ≠ fs.counter →
      ∃ id, read_incremented_id fs.counter = Except.ok id ∧
        (id, publishedStructure identifier auto commands id) ∈
          (execute_commands env identifier auto commands fs).1.nbtFiles) ∧
    (∀ e, (execute_commands env identifier auto commands fs).2 = some e →
      e ≠ ExecErr.seekId → e ≠ ExecErr.writeIdFile →
      (execute_commands env identifier auto commands fs).1.counter = fs.counter) ∧
    ((execute_commands env identifier auto commands fs).2 = none →
      ∃ id, read_incremented_id fs.counter = Except.ok id ∧
        (execute_commands env identifier auto commands fs).1.counter = toString id) := by
  obtain ⟨h1, h2, h3⟩ := execute_commands_spec env identifier auto commands fs
  refine ⟨fun hne => ?_, h2, fun hok => ?_⟩
  · obtain ⟨id, hid, hfiles⟩ := h1 hne
    refine ⟨id, hid, ?_⟩
    rw [hfiles]
    exact List.mem_cons_self _ _
  · obtain ⟨id, hid, hcounter, _⟩ := h3 hok
    exact ⟨id, hid, hcounter⟩

/-- C1 witness: the all-success run from counter `"5"` derives id 6 and
persists `"6"`. -/
theorem execute_commands_counter_write_ordering_witness :
    (execute_commands envAllOk ("conn") true [] fsFive).2 = none ∧
    read_incremented_id fsFive.counter = Except.ok 6 ∧
    (execute_commands envAllOk ("conn") true [] fsFive).1.counter = toString 6 := by
  obtain ⟨id, hid, hc⟩ :=
    (execute_commands_counter_write_ordering envAllOk ("conn") true [] fsFive).2.2 rfl
  have hid6 : (Except.ok 6 : Except Unit Nat) = Except.ok id := by
    rw [← hid]
    rfl
  injection hid6 with hid6
  subst hid6
  exact ⟨rfl, hid, hc⟩

/-- C9 counterexample: a fully successful publish starting from counter
`"5"` leaves exactly the canonical file `6.nbt` in the structures directory;
no placeholder file for id+1 = 7 is created. -/
theorem execute_commands_creates_no_placeholder :
    (execute_commands envAllOk ("conn") true [] fsFive).2 = none ∧
    (execute_commands envAllOk ("conn") true [] fsFive).1.nbtFiles.map Prod.fst = [6] ∧
    ¬ (7 ∈ (execute_commands envAllOk ("conn") true [] fsFive).1.nbtFiles.map Prod.fst) := by
  refine ⟨rfl, rfl, ?_⟩
  rw [show (execute_commands envAllOk ("conn") true [] fsFive).1.nbtFiles.map Prod.fst = [6]
    from rfl]
  decide

/-- C9 amended: every successful publish atomically renames the temp file to
the canonical `<id>.nbt` name (replacing any stale file of that id) and
clears the temp file, but creates no corrupt placeholder file for id+1;
instead the generated structure itself starts with a structure block whose
structure name references the next id (`minect:<identifier>/<id+1>`), which
is how the host is pointed at the following batch. -/
theorem execute_commands_success_files (env : Env) (identifier : String)
    (auto : Bool) (commands : List Command) (fs : WorldFS) :
    ((execute_commands env identifier auto commands fs).2 = none →
      ∃ id, read_incremented_id fs.counter = Except.ok id ∧
        (execute_commands env identifier auto commands fs).1.nbtFiles =
          (id, publishedStructure identifier auto commands id) ::
            fs.nbtFiles.filter (fun p => p.1 != id) ∧
        (execute_commands env identifier auto commands fs).1.tmp = none) ∧
    (∀ id : Nat, (generate_basic_structure identifier ((id + 1) % 2 ^ 64)).head? =
      some (new_structure_block
        (NAMESPACE ++ ":" ++ identifier ++ "/" ++ toString ((id + 1) % 2 ^ 64)) ("LOAD")
        ⟨0, 0, 0⟩)) := by
  obtain ⟨_, _, h3⟩ := execute_commands_spec env identifier auto commands fs
  refine ⟨fun hok => ?_, fun id => rfl⟩
  obtain ⟨id, hid, _, hfiles, htmp⟩ := h3 hok
  exact ⟨id, hid, hfiles, htmp⟩

/-- C9 witness: the all-success run from counter `"5"`. -/
theorem execute_commands_success_files_witness :
    (execute_commands envAllOk ("conn") true [] fsFive).2 = none ∧
    (∃ id, read_incremented_id fsFive.counter = Except.ok id ∧
      (execute_commands envAllOk ("conn") true [] fsFive).1.nbtFiles =
        (id, publishedStructure ("conn") true [] id) ::
          fsFive.nbtFiles.filter (fun p => p.1 != id) ∧
      (execute_commands envAllOk ("conn") true [] fsFive).1.tmp = none) :=
  ⟨rfl, (execute_commands_success_files envAllOk ("conn") true [] fsFive).1 rfl⟩

theorem annotScan_append {C : Type} (isCond : C → Bool) (l1 l2 : List C) : ∀ s,
    annotScan isCond s (l1 ++ l2) =
      annotScan isCond s l1 ++ annotScan isCond (stFinal isCond s l1) l2 := by
  induction l1 with
  | nil => intro s; rfl
  | cons c l1 ih =>
    intro s
    by_cases hc : isCond c = true
    · simp only [List.cons_append, annotScan, stFinal, hc, if_true, ite_true,
        List.cons_append]
      exact congrArg _ (ih _)
    · have hc' : isCond c = false := by
        revert hc
        cases isCond c <;> simp
      by_cases hs : s = 0
      · subst hs
        simp only [List.cons_append, annotScan, stFinal, hc', Bool.false_eq_true, if_false,
          ite_false, ne_eq, not_true_eq_false, List.cons_append]
        exact congrArg _ (ih _)
      · simp only [List.cons_append, annotScan, stFinal, hc', Bool.false_eq_true, if_false,
          ite_false, ne_eq, hs, not_false_eq_true, if_true, ite_true, List.cons_append]
        exact congrArg _ (ih _)

theorem stFinal_append {C : Type} (isCond : C → Bool) (l1 l2 : List C) : ∀ s,
    stFinal isCond s (l1 ++ l2) = stFinal isCond (stFinal isCond s l1) l2 := by
  induction l1 with
  | nil => intro s; rfl
  | cons c l1 ih =>
    intro s
    simp only [List.cons_append, stFinal]
    exact ih _

theorem stFinal_reverse {C : Type} (isCond : C → Bool) (chain : List C) :
    stFinal isCond 0 chain.reverse = condLenFrom isCond chain := by
  induction chain with
  | nil => rfl
  | cons c l ih =>
    rw [List.reverse_cons, stFinal_append, ih]
    simp only [stFinal, condLenFrom]

theorem annotate_cons {C : Type} (isCond : C → Bool) (c : C) (l : List C) :
    annotate isCond (c :: l) =
      (c, if isCond c then condLenFrom isCond l + 1
          else if condLenFrom isCond l ≠ 0 then condLenFrom isCond l + 1 else 0) ::
        annotate isCond l := by
  unfold annotate
  rw [List.reverse_cons, annotScan_append, stFinal_reverse, List.reverse_append]
  by_cases hc : isCond c = true
  · simp only [annotScan, hc, if_true, ite_true, List.reverse_cons, List.reverse_nil,
      List.nil_append, List.singleton_append]
  · have hc' : isCond c = false := by
      revert hc
      cases isCond c <;> simp
    by_cases hs : condLenFrom isCond l = 0
    · simp only [annotScan, hc', Bool.false_eq_true, if_false, ite_false, ne_eq, hs,
        not_true_eq_false, List.reverse_cons, List.reverse_nil, List.nil_append,
        List.singleton_append]
    · simp only [annotScan, hc', Bool.false_eq_true, if_false, ite_false, ne_eq, hs,
        not_false_eq_true, if_true, ite_true, List.reverse_cons, List.reverse_nil,
        List.nil_append, List.singleton_append]

theorem annotate_append_exists {C : Type} (isCond : C → Bool) (l1 l2 : List C) :
    ∃ X : List (C × Nat), annotate isCond (l1 ++ l2) = X ++ annotate isCond l2 ∧
      X.length = l1.length := by
  induction l1 with
  | nil => exact ⟨[], rfl, rfl⟩
  | cons c l1 ih =>
    obtain ⟨X, hX, hlen⟩ := ih
    refine ⟨(c, if isCond c then condLenFrom isCond (l1 ++ l2) + 1
        else if condLenFrom isCond (l1 ++ l2) ≠ 0 then condLenFrom isCond (l1 ++ l2) + 1
        else 0) :: X, ?_, by simp [hlen]⟩
    rw [List.cons_append, annotate_cons, hX]
    rfl

theorem annotate_cond_run {C : Type} (isCond : C → Bool) :
    ∀ (run l2 : List C), (∀ c ∈ run, isCond c = true) →
      ∃ pre : List (C × Nat),
        annotate isCond (run ++ l2) = pre ++ annotate isCond l2 ∧
        pre.length = run.length ∧
        condLenFrom isCond (run ++ l2) = run.length + condLenFrom isCond l2 ∧
        ∀ m c, run.get? m = some c →
          pre.get? m = some (c, condLenFrom isCond (run ++ l2) - m) := by
  intro run
  induction run with
  | nil =>
    intro l2 _
    exact ⟨[], rfl, rfl, by simp, fun m c h => by simp at h⟩
  | cons c run ih =>
    intro l2 hcond
    have hc : isCond c = true := hcond c (List.mem_cons_self _ _)
    obtain ⟨pre, hpre, hlen, hclf, hget⟩ := ih l2 (fun x hx => hcond x (List.mem_cons_of_mem _ hx))
    have hhead : condLenFrom isCond ((c :: run) ++ l2) =
        condLenFrom isCond (run ++ l2) + 1 := by
      rw [List.cons_append]
      simp only [condLenFrom, hc, if_true, ite_true]
    refine ⟨(c, condLenFrom isCond (run ++ l2) + 1) :: pre, ?_, by simp [hlen], ?_, ?_⟩
    · rw [List.cons_append, annotate_cons, hc, if_pos rfl, hpre, List.cons_append]
    · rw [hhead, hclf]
      simp only [List.length_cons]
      omega
    · intro m x hm
      match m with
      | 0 =>
        simp only [List.get?_cons_zero, Option.some.injEq] at hm
        subst hm
        simp only [List.get?_cons_zero, hhead, Option.some.injEq, Nat.sub_zero]
      | m + 1 =>
        simp only [List.get?_cons_succ] at hm ⊢
        rw [hget m x hm, hhead]
        congr 2
        omega

theorem add_small_mod_div (n m prim : Nat) (hprim : 0 < prim) (h : n % prim + m < prim) :
    (n + m) % prim = n % prim + m ∧ (n + m) / prim = n / prim := by
  obtain ⟨q, hq⟩ : ∃ q, prim * q + n % prim = n := ⟨n / prim, Nat.div_add_mod n prim⟩
  have h1 : n + m = n % prim + m + prim * q := by omega
  have hq' : n / prim = q := by
    rw [← hq, Nat.mul_add_div hprim, Nat.div_eq_of_lt (Nat.mod_lt _ hprim)]
    omega
  constructor
  · rw [h1, Nat.add_mul_mod_self_left, Nat.mod_eq_of_lt h]
  · rw [h1, Nat.add_mul_div_left _ _ hprim, Nat.div_eq_of_lt h, hq']
    omega

theorem placeGo_cons_pos {C : Type} (prim n : Nat) (c : C) (a : Nat)
    (rest : List (C × Nat)) (hins : a ≠ 0 ∧ prim - 1 - n % prim < a) :
    placeGo prim n ((c, a) :: rest) =
      (List.range (prim - 1 - n % prim + 1)).map
        (fun i => ⟨none, flatCoord prim (n + i), dirAt prim (n + i)⟩) ++
      ⟨some c, flatCoord prim (n + (prim - 1 - n % prim + 1)),
          dirAt prim (n + (prim - 1 - n % prim + 1))⟩ ::
        placeGo prim (n + (prim - 1 - n % prim + 1) + 1) rest := by
  simp only [placeGo]
  rw [if_pos hins]

theorem placeGo_cons_neg {C : Type} (prim n : Nat) (c : C) (a : Nat)
    (rest : List (C × Nat)) (hins : ¬(a ≠ 0 ∧ prim - 1 - n % prim < a)) :
    placeGo prim n ((c, a) :: rest) =
      ⟨some c, flatCoord prim n, dirAt prim n⟩ :: placeGo prim (n + 1) rest := by
  simp only [placeGo]
  rw [if_neg hins]

theorem placeEnd_cons_pos {C : Type} (prim n : Nat) (c : C) (a : Nat)
    (rest : List (C × Nat)) (hins : a ≠ 0 ∧ prim - 1 - n % prim < a) :
    placeEnd prim n ((c, a) :: rest) =
      placeEnd prim (n + (prim - 1 - n % prim + 1) + 1) rest := by
  simp only [placeEnd]
  rw [if_pos hins]

theorem placeEnd_cons_neg {C : Type} (prim n : Nat) (c : C) (a : Nat)
    (rest : List (C × Nat)) (hins : ¬(a ≠ 0 ∧ prim - 1 - n % prim < a)) :
    placeEnd prim n ((c, a) :: rest) = placeEnd prim (n + 1) rest := by
  simp only [placeEnd]
  rw [if_neg hins]

theorem placeGo_append {C : Type} (prim : Nat) (l1 l2 : List (C × Nat)) : ∀ n,
    placeGo prim n (l1 ++ l2) =
      placeGo prim n l1 ++ placeGo prim (placeEnd prim n l1) l2 := by
  induction l1 with
  | nil => intro n; rfl
  | cons ca l1 ih =>
    intro n
    obtain ⟨c, a⟩ := ca
    by_cases hins : a ≠ 0 ∧ prim - 1 - n % prim < a
    · rw [List.cons_append, placeGo_cons_pos _ _ _ _ _ hins, placeGo_cons_pos _ _ _ _ _ hins,
        placeEnd_cons_pos _ _ _ _ _ hins, ih]
      simp [List.append_assoc]
    · rw [List.cons_append, placeGo_cons_neg _ _ _ _ _ hins, placeGo_cons_neg _ _ _ _ _ hins,
        placeEnd_cons_neg _ _ _ _ _ hins, ih]
      simp

/-- When a conditional sequence does not fit before the corner, the
placement loop first emits the no-op cells up to the corner and then
behaves exactly as if restarted at the next column start. -/
theorem placeGo_insert_eq {C : Type} (prim : Nat) (hprim : 2 ≤ prim) (n : Nat) (c : C)
    (a : Nat) (rest : List (C × Nat)) (hins : a ≠ 0 ∧ prim - 1 - n % prim < a)
    (hfit : a ≤ prim - 1) :
    placeGo prim n ((c, a) :: rest) =
      (List.range (prim - 1 - n % prim + 1)).map
        (fun i => ⟨none, flatCoord prim (n + i), dirAt prim (n + i)⟩) ++
      placeGo prim (n + (prim - 1 - n % prim + 1)) ((c, a) :: rest) ∧
    (n + (prim - 1 - n % prim + 1)) % prim = 0 := by
  have hmodzero : (n + (prim - 1 - n % prim + 1)) % prim = 0 := by
    obtain ⟨q, hq⟩ : ∃ q, prim * q + n % prim = n := ⟨n / prim, Nat.div_add_mod n prim⟩
    have hlt : n % prim < prim := Nat.mod_lt _ (by omega)
    have h1 : n + (prim - 1 - n % prim + 1) = 0 + prim * (q + 1) := by
      have hexp : prim * (q + 1) = prim * q + prim := by ring
      rw [hexp]
      omega
    rw [h1, Nat.add_mul_mod_self_left, Nat.zero_mod]
  refine ⟨?_, hmodzero⟩
  rw [placeGo_cons_pos _ _ _ _ _ hins,
    placeGo_cons_neg _ _ _ _ _ (by
      rw [hmodzero]
      intro hcon
      omega)]

/-- A descending-annotated block that fits on the current straight segment
is placed on consecutive curve indices with no inserted no-ops. -/
theorem placeGo_straight {C : Type} (prim : Nat) (hprim : 2 ≤ prim) :
    ∀ (es tail : List (C × Nat)) (n b : Nat),
      (∀ m c a, es.get? m = some (c, a) → a = b - m) →
      es.length ≤ b →
      n % prim + b ≤ prim - 1 →
      ∀ m c a, es.get? m = some (c, a) →
        (placeGo prim n (es ++ tail)).get? m =
          some ⟨some c, flatCoord prim (n + m), dirAt prim (n + m)⟩ := by
  intro es
  induction es with
  | nil =>
    intro tail n b _ _ _ m c a h
    simp at h
  | cons ca es ih =>
    intro tail n b hdesc hlen hfit m c a hm
    obtain ⟨c0, a0⟩ := ca
    have ha0 : a0 = b := by simpa using hdesc 0 c0 a0 rfl
    have hlen' : es.length + 1 ≤ b := by simpa using hlen
    have hnmod : n % prim < prim := Nat.mod_lt _ (by omega)
    have hnoins : ¬(a0 ≠ 0 ∧ prim - 1 - n % prim < a0) := by
      rintro ⟨_, hcon⟩
      omega
    rw [List.cons_append, placeGo_cons_neg _ _ _ _ _ hnoins]
    match m with
    | 0 =>
      simp only [List.get?_cons_zero, Option.some.injEq] at hm
      cases hm
      simp only [List.get?_cons_zero, Option.some.injEq, Nat.add_zero]
    | m + 1 =>
      simp only [List.get?_cons_succ] at hm ⊢
      have hmod1 : (n + 1) % prim = n % prim + 1 :=
        (add_small_mod_div n 1 prim (by omega) (by omega)).1
      have hres := ih tail (n + 1) (b - 1)
        (fun m' c' a' hm' => by
          have := hdesc (m' + 1) c' a' (by simpa using hm')
          omega)
        (by omega)
        (by rw [hmod1]; omega)
        m c a hm
      rw [hres]
      have harith : n + 1 + m = n + (m + 1) := by omega
      rw [harith]

/-- A descending-annotated block whose annotations fit in one column is
placed, possibly after no-op padding cells, on consecutive curve indices of
a single straight segment: the block's cells are consecutive in the output. -/
theorem placeGo_run {C : Type} (prim : Nat) (hprim : 2 ≤ prim)
    (es tail : List (C × Nat)) (n b : Nat)
    (hdesc : ∀ m c a, es.get? m = some (c, a) → a = b - m)
    (hlen1 : 1 ≤ es.length) (hlenb : es.length ≤ b) (hb : b ≤ prim - 2) :
    ∃ t n₀, n₀ % prim + b ≤ prim - 1 ∧
      ∀ m c a, es.get? m = some (c, a) →
        (placeGo prim n (es ++ tail)).get? (t + m) =
          some ⟨some c, flatCoord prim (n₀ + m), dirAt prim (n₀ + m)⟩ := by
  match es, hlen1 with
  | (c0, a0) :: es', _ =>
    have ha0 : a0 = b := by simpa using hdesc 0 c0 a0 rfl
    have hb1 : 1 ≤ b := by
      have := hlenb
      simp only [List.length_cons] at this
      omega
    have hnmod : n % prim < prim := Nat.mod_lt _ (by omega)
    by_cases hins : a0 ≠ 0 ∧ prim - 1 - n % prim < a0
    · obtain ⟨heq, hmod⟩ :=
        placeGo_insert_eq prim hprim n c0 a0 (es' ++ tail) hins (by omega)
      refine ⟨prim - 1 - n % prim + 1, n + (prim - 1 - n % prim + 1), by omega, ?_⟩
      intro m c a hm
      rw [List.cons_append, heq]
      rw [List.get?_append_right (by simp)]
      have hlenmap : ((List.range (prim - 1 - n % prim + 1)).map
          (fun i => (⟨none, flatCoord prim (n + i), dirAt prim (n + i)⟩ : PCommandBlock C))).length =
          prim - 1 - n % prim + 1 := by
        simp
      rw [hlenmap]
      have hidx : prim - 1 - n % prim + 1 + m - (prim - 1 - n % prim + 1) = m := by
        omega
      rw [hidx]
      have := placeGo_straight prim hprim ((c0, a0) :: es') tail
        (n + (prim - 1 - n % prim + 1)) b hdesc hlenb (by rw [hmod]; omega) m c a hm
      rw [List.cons_append] at this
      exact this
    · refine ⟨0, n, by omega, ?_⟩
      intro m c a hm
      have := placeGo_straight prim hprim ((c0, a0) :: es') tail n b hdesc hlenb
        (by omega) m c a hm
      rw [List.cons_append] at this
      have harith : 0 + m = m := by omega
      rw [harith]
      exact this

/-- Within one column (not at its last slot) the curve direction is
vertical: `Up` on forwards columns and `Down` on backwards columns. -/
theorem dirAt_vert (prim : Nat) (hprim : 2 ≤ prim) (n : Nat) (h : n % prim + 1 < prim) :
    dirAt prim n =
      if ((spiral (n / prim)).1 % 2 = 0 ↔ (spiral (n / prim)).2 % 2 = 0) then Direction3.Up
      else Direction3.Down := by
  obtain ⟨hmod, hdiv⟩ := add_small_mod_div n 1 prim (by omega) h
  unfold dirAt flatCoord
  rw [hmod, hdiv]
  simp only [Int.reduceNeg]
  by_cases hfwd : ((spiral (n / prim)).1 % 2 = 0 ↔ (spiral (n / prim)).2 % 2 = 0)
  · rw [if_pos hfwd, if_pos hfwd, if_pos hfwd]
    have hcast : ((n % prim + 1 : Nat) : Int) = ((n % prim : Nat) : Int) + 1 := by
      push_cast
      ring
    have hsub : (⟨(spiral (n / prim)).1, ((n % prim + 1 : Nat) : Int),
        (spiral (n / prim)).2⟩ : Coordinate3 Int).sub
        ⟨(spiral (n / prim)).1, ((n % prim : Nat) : Int), (spiral (n / prim)).2⟩ =
        ⟨0, 1, 0⟩ := by
      simp only [Coordinate3.sub, Coordinate3.mk.injEq]
      refine ⟨by ring, by omega, by ring⟩
    rw [hsub]
    rfl
  · rw [if_neg hfwd, if_neg hfwd, if_neg hfwd]
    have hsub : (⟨(spiral (n / prim)).1, ((prim - 1 - (n % prim + 1) : Nat) : Int),
        (spiral (n / prim)).2⟩ : Coordinate3 Int).sub
        ⟨(spiral (n / prim)).1, ((prim - 1 - (n % prim) : Nat) : Int), (spiral (n / prim)).2⟩ =
        ⟨0, -1, 0⟩ := by
      simp only [Coordinate3.sub, Coordinate3.mk.injEq]
      refine ⟨by ring, by omega, by ring⟩
    rw [hsub]
    rfl

theorem condLenFrom_le_countP {C : Type} (isCond : C → Bool) :
    ∀ l : List C, condLenFrom isCond l ≤ l.countP isCond := by
  intro l
  induction l with
  | nil => simp [condLenFrom]
  | cons c l ih =>
    by_cases hc : isCond c = true
    · rw [List.countP_cons_of_pos _ _ hc]
      simp only [condLenFrom, hc, if_true, ite_true]
      omega
    · have hc' : isCond c = false := by
        revert hc
        cases isCond c <;> simp
      rw [List.countP_cons_of_neg _ _ (by simp [hc'])]
      simp only [condLenFrom, hc', Bool.false_eq_true, if_false, ite_false]
      omega

theorem max_cond_len_foldl_snd {C : Type} (isCond : C → Bool) :
    ∀ (l : List C) (a b : Nat),
      (l.foldl (fun acc c =>
        if isCond c then (acc.1, acc.2 + 1) else (max acc.1 acc.2, acc.2)) (a, b)).2 =
        b + l.countP isCond := by
  intro l
  induction l with
  | nil => intro a b; simp
  | cons c l ih =>
    intro a b
    by_cases hc : isCond c = true
    · rw [List.foldl_cons, List.countP_cons_of_pos _ _ hc]
      simp only [hc, if_true, ite_true]
      rw [ih]
      omega
    · have hc' : isCond c = false := by
        revert hc
        cases isCond c <;> simp
      rw [List.foldl_cons, List.countP_cons_of_neg _ _ (by simp [hc'])]
      simp only [hc', Bool.false_eq_true, if_false, ite_false]
      rw [ih]

theorem countP_le_max_cond_len {C : Type} (isCond : C → Bool) (chain : List C) :
    chain.countP isCond ≤ max_cond_len isCond chain := by
  unfold max_cond_len
  have h := max_cond_len_foldl_snd isCond chain 0 0
  calc chain.countP isCond
      = (chain.foldl (fun acc c =>
          if isCond c then (acc.1, acc.2 + 1) else (max acc.1 acc.2, acc.2)) (0, 0)).2 := by
        rw [h]
        omega
    _ ≤ _ := le_max_right _ _

/-- C4: for every command chain given to `place_commands` containing a run
of `k` consecutive conditional commands, the run occupies `k` consecutive
cells of the output that all share the same outgoing direction — it is
never split across a path reversal (no-op cells are inserted to push the
run past a corner when it would not fit on the remaining straight segment,
as `placeGo_run` shows).  `est` abstracts the source's `f32` cube-root
side-length estimate, so this holds for every value of that float. -/
theorem place_commands_cond_run_contiguous {C : Type} (isCond : C → Bool) (est : Nat)
    (chain : List C) (s k : Nat) (hk : 1 ≤ k) (hsk : s + k ≤ chain.length)
    (hcond : ∀ m, m < k → ∃ c, chain.get? (s + m) = some c ∧ isCond c = true) :
    ∃ t d, ∀ m, m < k →
      ∃ cell, (place_commands isCond est chain).get? (t + m) = some cell ∧
        cell.command = chain.get? (s + m) ∧ cell.direction = d := by
  set prim := max (max_cond_len isCond chain + 2) est with hprimdef
  have hprim : 2 ≤ prim := le_trans (by omega) (le_max_left _ _)
  set l1 := chain.take s with hl1
  set run := (chain.drop s).take k with hrundef
  set l2 := (chain.drop s).drop k with hl2
  have hsplit1 : chain = l1 ++ (run ++ l2) := by
    rw [hl1, hrundef, hl2, List.take_append_drop, List.take_append_drop]
  have hdroplen : (chain.drop s).length = chain.length - s := List.length_drop _ _
  have hrunlen : run.length = k := by
    rw [hrundef, List.length_take]
    omega
  have hrunget : ∀ m, m < k → run.get? m = chain.get? (s + m) := by
    intro m hm
    rw [hrundef, List.get?_take (by omega), List.get?_drop]
  have hruncond : ∀ c ∈ run, isCond c = true := by
    intro c hc
    obtain ⟨⟨m, hmlt⟩, hmg⟩ := List.mem_iff_get.1 hc
    have hmg' : run.get? m = some c := by
      rw [List.get?_eq_get hmlt, hmg]
    rw [hrunlen] at hmlt
    obtain ⟨c', hc', hcondc'⟩ := hcond m hmlt
    rw [hrunget m hmlt, hc'] at hmg'
    injection hmg' with hmg'
    subst hmg'
    exact hcondc'
  obtain ⟨pre, hpre, hprelen, hclf, hpreget⟩ := annotate_cond_run isCond run l2 hruncond
  have hA : condLenFrom isCond (run ++ l2) = k + condLenFrom isCond l2 := by
    rw [hclf, hrunlen]
  have hAle : condLenFrom isCond (run ++ l2) ≤ max_cond_len isCond chain := by
    have h1 := condLenFrom_le_countP isCond (run ++ l2)
    have h2 : (run ++ l2).countP isCond ≤ chain.countP isCond := by
      have hsum : chain.countP isCond = l1.countP isCond + (run ++ l2).countP isCond := by
        conv_lhs => rw [hsplit1]
        rw [List.countP_append]
      omega
    have h3 := countP_le_max_cond_len isCond chain
    omega
  obtain ⟨X, hX, hXlen⟩ := annotate_append_exists isCond l1 (run ++ l2)
  have hout : place_commands isCond est chain =
      placeGo prim 0 X ++ placeGo prim (placeEnd prim 0 X) (pre ++ annotate isCond l2) := by
    unfold place_commands
    rw [← hprimdef]
    conv_lhs => rw [hsplit1]
    rw [hX, placeGo_append, hpre]
  have hprimge : max_cond_len isCond chain + 2 ≤ prim := le_max_left _ _
  obtain ⟨t', n₀, hn₀, hrun⟩ := placeGo_run prim hprim pre (annotate isCond l2)
    (placeEnd prim 0 X) (condLenFrom isCond (run ++ l2))
    (by
      intro m c a hm
      obtain ⟨hmlt, _⟩ := List.get?_eq_some.1 hm
      rw [hprelen, hrunlen] at hmlt
      have hrg : run.get? m = some (run.get ⟨m, by omega⟩) :=
        List.get?_eq_get (by omega)
      have hpg := hpreget m _ hrg
      rw [hm] at hpg
      injection hpg with hpg
      exact (Prod.ext_iff.1 hpg).2)
    (by rw [hprelen, hrunlen]; exact hk)
    (by rw [hprelen, hrunlen]; omega)
    (by omega)
  refine ⟨(placeGo prim 0 X).length + t',
    (if ((spiral (n₀ / prim)).1 % 2 = 0 ↔ (spiral (n₀ / prim)).2 % 2 = 0) then Direction3.Up
      else Direction3.Down), ?_⟩
  intro m hm
  obtain ⟨c_m, hcm, _⟩ := hcond m hm
  have hrg : run.get? m = some c_m := by
    rw [hrunget m hm, hcm]
  have hpg : pre.get? m = some (c_m, condLenFrom isCond (run ++ l2) - m) := hpreget m c_m hrg
  have hcell := hrun m c_m (condLenFrom isCond (run ++ l2) - m) hpg
  refine ⟨⟨some c_m, flatCoord prim (n₀ + m), dirAt prim (n₀ + m)⟩, ?_, by rw [hcm], ?_⟩
  · rw [hout, List.get?_append_right (by omega)]
    have hidx : (placeGo prim 0 X).length + t' + m - (placeGo prim 0 X).length = t' + m := by
      omega
    rw [hidx]
    exact hcell
  · obtain ⟨hm2, hd2⟩ := add_small_mod_div n₀ m prim (by omega) (by omega)
    show dirAt prim (n₀ + m) = _
    rw [dirAt_vert prim hprim (n₀ + m) (by rw [hm2]; omega), hd2]

/-- C4 witness: the chain `[unconditional, conditional, conditional]` with
estimate 0; the run is the two conditional commands at positions 1 and 2. -/
theorem place_commands_cond_run_contiguous_witness :
    1 ≤ 2 ∧ 1 + 2 ≤ ([false, true, true] : List Bool).length ∧
    (∃ t d, ∀ m, m < 2 →
      ∃ cell, (place_commands (fun b => b) 0 [false, true, true]).get? (t + m) = some cell ∧
        cell.command = ([false, true, true] : List Bool).get? (1 + m) ∧ cell.direction = d) :=
  ⟨by norm_num, by norm_num,
    place_commands_cond_run_contiguous (fun b => b) 0 [false, true, true] 1 2
      (by norm_num) (by norm_num)
      (by decide)⟩

/-- C7 witness: the invariants evaluated on a two-block sequence with a
shared palette entry. -/
theorem structure_builder_invariants_witness :
    (∀ sb ∈ (addBlocks [⟨"minecraft:stone", ⟨0, 2, 1⟩, [], none⟩,
        ⟨"minecraft:stone", ⟨1, 0, 0⟩, [], none⟩]).blocks,
      0 ≤ sb.state ∧
        sb.state < (addBlocks [⟨"minecraft:stone", ⟨0, 2, 1⟩, [], none⟩,
          ⟨"minecraft:stone", ⟨1, 0, 0⟩, [], none⟩]).palette.length) ∧
    (addBlocks [⟨"minecraft:stone", ⟨0, 2, 1⟩, [], none⟩,
      ⟨"minecraft:stone", ⟨1, 0, 0⟩, [], none⟩]).palette.Nodup ∧
    (addBlocks [⟨"minecraft:stone", ⟨0, 2, 1⟩, [], none⟩,
        ⟨"minecraft:stone", ⟨1, 0, 0⟩, [], none⟩]).size =
      List.foldl (fun acc blk => Coordinate3.max3 acc (blk.pos.add ⟨1, 1, 1⟩)) ⟨0, 0, 0⟩
        ([⟨"minecraft:stone", ⟨0, 2, 1⟩, [], none⟩,
          ⟨"minecraft:stone", ⟨1, 0, 0⟩, [], none⟩] : List Block) ∧
    (addBlocks [⟨"minecraft:stone", ⟨0, 2, 1⟩, [], none⟩,
        ⟨"minecraft:stone", ⟨1, 0, 0⟩, [], none⟩]).build.palette =
      (addBlocks [⟨"minecraft:stone", ⟨0, 2, 1⟩, [], none⟩,
        ⟨"minecraft:stone", ⟨1, 0, 0⟩, [], none⟩]).palette ∧
    (addBlocks [⟨"minecraft:stone", ⟨0, 2, 1⟩, [], none⟩,
        ⟨"minecraft:stone", ⟨1, 0, 0⟩, [], none⟩]).build.blocks =
      (addBlocks [⟨"minecraft:stone", ⟨0, 2, 1⟩, [], none⟩,
        ⟨"minecraft:stone", ⟨1, 0, 0⟩, [], none⟩]).blocks ∧
    (addBlocks [⟨"minecraft:stone", ⟨0, 2, 1⟩, [], none⟩,
        ⟨"minecraft:stone", ⟨1, 0, 0⟩, [], none⟩]).build.size =
      [(addBlocks [⟨"minecraft:stone", ⟨0, 2, 1⟩, [], none⟩,
          ⟨"minecraft:stone", ⟨1, 0, 0⟩, [], none⟩]).size.c0,
        (addBlocks [⟨"minecraft:stone", ⟨0, 2, 1⟩, [], none⟩,
          ⟨"minecraft:stone", ⟨1, 0, 0⟩, [], none⟩]).size.c1,
        (addBlocks [⟨"minecraft:stone", ⟨0, 2, 1⟩, [], none⟩,
          ⟨"minecraft:stone", ⟨1, 0, 0⟩, [], none⟩]).size.c2] :=
  structure_builder_invariants
    [⟨"minecraft:stone", ⟨0, 2, 1⟩, [], none⟩, ⟨"minecraft:stone", ⟨1, 0, 0⟩, [], none⟩]

end Minect
